import Mathlib

/-!
# Topology parsing, routing table and shard scanner of redispipe

A shallow embedding of `redis/cluster.go`, `rediscluster/scan.go` and
`resp/scanner.go`, followed by theorems about the embedded functions.

Conventions of the embedding.

* A Go `string` / `[]byte` is a list of bytes; one `Char` stands for one byte,
  so `len(s)` is `List.length` and `<` on strings is the lexicographic order
  on character codes (`strLess`).
* Go `int` and `int64` are 64 bit wide.  Values are kept as `Int`; the only
  arithmetic that can leave the range (`port+10000`) is wrapped by `wrapInt64`.
  `uint16(x)` is `x % 65536`.
* A Go function returning `(value, error)` returns a `Res`; a run-time panic
  (index or slice bound out of range) is the third outcome `Res.panic`.
* `sort.Slice` / `sort.Strings` are not stable.  Every function that sorts takes
  the sorting routine as a `SliceSorter`: any function that returns a
  permutation of its argument which is ordered whenever the comparison is a
  strict weak order.  `insertionSorter` is one such routine.
-/

namespace Redispipe

/-! ## Strings -/

/-- Go strings: sequences of bytes, one `Char` per byte. -/
abbrev Str := List Char

/-- Go's `a < b` on strings: lexicographic comparison of the bytes. -/
def strLess : Str → Str → Bool
  | [], [] => false
  | [], _ :: _ => true
  | _ :: _, [] => false
  | a :: as, b :: bs =>
    if a.toNat < b.toNat then true
    else if b.toNat < a.toNat then false
    else strLess as bs

/-! ## Sorting -/

/-- Go's `sort.Slice(xs, less)` as a contract: the result is a permutation of
the argument and, when `less` is a strict weak order (asymmetric, with a
transitive complement), no later element is less than an earlier one. -/
structure SliceSorter where
  sort : {α : Type} → (α → α → Bool) → List α → List α
  perm : ∀ {α : Type} (less : α → α → Bool) (xs : List α), (sort less xs).Perm xs
  sorted : ∀ {α : Type} (less : α → α → Bool) (xs : List α),
    (∀ a b, less a b = true → less b a = false) →
    (∀ a b c, less b a = false → less c b = false → less c a = false) →
    (sort less xs).Pairwise (fun a b => less b a = false)

/-- Insert `a` in front of the first element that is not less than `a`. -/
def insertBy {α : Type} (less : α → α → Bool) (a : α) : List α → List α
  | [] => [a]
  | b :: bs => if less b a then b :: insertBy less a bs else a :: b :: bs

/-- Insertion sort driven by a Go style `less` function. -/
def insertionSort {α : Type} (less : α → α → Bool) : List α → List α
  | [] => []
  | a :: as => insertBy less a (insertionSort less as)

/-- A sorting routine meeting the contract of `sort.Slice`. -/
def insertionSorter : SliceSorter where
  sort := fun less xs => insertionSort less xs
  perm := by
    intro α less xs
    have hins : ∀ (a : α) (l : List α), (insertBy less a l).Perm (a :: l) := by
      intro a l
      induction l with
      | nil => simp [insertBy]
      | cons b bs ih =>
        unfold insertBy
        split
        · exact (List.Perm.cons b ih).trans (List.Perm.swap a b bs)
        · exact List.Perm.refl _
    induction xs with
    | nil => simp [insertionSort]
    | cons a as ih =>
      unfold insertionSort
      exact (hins a _).trans (List.Perm.cons a ih)
  sorted := by
    intro α less xs hasym htrans
    have hins : ∀ (a : α) (l : List α), (insertBy less a l).Perm (a :: l) := by
      intro a l
      induction l with
      | nil => simp [insertBy]
      | cons b bs ih =>
        unfold insertBy
        split
        · exact (List.Perm.cons b ih).trans (List.Perm.swap a b bs)
        · exact List.Perm.refl _
    have hsort : ∀ (a : α) (l : List α), l.Pairwise (fun x y => less y x = false) →
        (insertBy less a l).Pairwise (fun x y => less y x = false) := by
      intro a l
      induction l with
      | nil => intro _; simp [insertBy]
      | cons b bs ih =>
        intro hl
        unfold insertBy
        rw [List.pairwise_cons] at hl
        split
        · rename_i hba
          rw [List.pairwise_cons]
          refine ⟨?_, ih hl.2⟩
          intro y hy
          rcases (List.mem_cons.mp ((hins a bs).subset hy)) with h | h
          · subst h; exact hasym _ _ hba
          · exact hl.1 y h
        · rename_i hba
          have hba2 : less b a = false := by simpa using hba
          rw [List.pairwise_cons]
          refine ⟨?_, List.pairwise_cons.mpr hl⟩
          intro y hy
          rcases List.mem_cons.mp hy with h | h
          · subst h; exact hba2
          · exact htrans a b y hba2 (hl.1 y h)
    induction xs with
    | nil => simp [insertionSort]
    | cons a as ih =>
      unfold insertionSort
      exact hsort a _ ih

/-! ## Errors and results -/

/-- An error value: namespace (kind), type within the namespace, message and
attached properties.  The text produced by `fmt.Sprintf` is not modelled,
`msg` keeps the format string. -/
structure RedisError where
  kind : String
  type : String
  msg : String
  props : List (String × Str)
deriving DecidableEq, Repr

/-- The error `NewErrMsg(ErrKindResponse, ErrResponseUnexpected, msg)`. -/
def errUnexpected (msg : String) : RedisError :=
  { kind := "response", type := "unexpected", msg := msg, props := [] }

/-- Outcome of a Go function returning `(value, error)`: a value with a nil
error, a nil value with an error, or a run-time panic. -/
inductive Res (α : Type) where
  | ok (a : α)
  | error (e : RedisError)
  | panic
deriving DecidableEq, Repr

/-- Sequencing of outcomes: the first error or panic stops the computation. -/
def Res.bind {α β : Type} (r : Res α) (f : α → Res β) : Res β :=
  match r with
  | .ok a => f a
  | .error e => .error e
  | .panic => .panic

/-! ## Decoded replies -/

/-- A decoded reply (`interface{}`): `int64`, `[]byte`, `[]interface{}`, an
error value, or a value of any other dynamic type (nil included). -/
inductive Value where
  | int (i : Int)
  | bytes (b : Str)
  | array (xs : List Value)
  | err (e : RedisError)
  | other

/-- Modelled from the spec: `AsError` is not among the sources; a reply that is
itself an error value is that error, every other reply is no error. -/
def AsError : Value → Option RedisError
  | .err e => some e
  | _ => none

/-- Two's complement wrap-around of a 64 bit signed integer. -/
def wrapInt64 (x : Int) : Int := (x + 2 ^ 63) % 2 ^ 64 - 2 ^ 63

/-- The values of type `int64`. -/
def IsInt64 (x : Int) : Prop := -(2 ^ 63) ≤ x ∧ x < 2 ^ 63

/-- Go's `strconv.Itoa`: decimal rendering. -/
def Itoa (i : Int) : Str :=
  if i < 0 then '-' :: Nat.toDigits 10 i.natAbs else Nat.toDigits 10 i.natAbs

/-! ## `CLUSTER SLOTS` -/

/-- Number of slots, `1 << 14`. -/
def NumSlots : Int := 16384

structure SlotsRange where
  From : Int
  To : Int
  Addrs : List Str
deriving DecidableEq, Repr

/-- Body of the loop over `j` in `ParseSlotsInfo` (lines 63-74): one address
element to `host:port`. -/
def parseAddr (elem : Value) : Res Str :=
  match elem with
  | .array (h :: p :: _) =>
    match h, p with
    | .bytes host, .int port =>
      if port ≤ 0 ∨ wrapInt64 (port + 10000) > 65535 then
        .error (errUnexpected "address format mismatch: res[%d][%d] = %+v")
      else .ok (host ++ ':' :: Itoa port)
    | _, _ => .error (errUnexpected "address format mismatch: res[%d][%d] = %+v")
  | _ => .error (errUnexpected "address format mismatch: res[%d][%d] = %+v")

/-- The loop over `j` in `ParseSlotsInfo`: addresses are appended in order, the
first failure returns. -/
def parseAddrs : List Value → Res (List Str)
  | [] => .ok []
  | e :: es => (parseAddr e).bind fun a => (parseAddrs es).bind fun as => .ok (a :: as)

/-- The statement `sort.Strings(r.Addrs[1:])`: slicing an empty list at 1 is out of range. -/
def sortTail (srt : SliceSorter) : List Str → Res (List Str)
  | [] => .panic
  | a :: rest => .ok (a :: srt.sort strLess rest)

/-- Body of the loop over `i` in `ParseSlotsInfo` (lines 44-77). -/
def parseRange (srt : SliceSorter) (rawelem : Value) : Res SlotsRange :=
  match rawelem with
  | .array (f :: t :: a :: rest) =>
    match f with
    | .int i64 =>
      if i64 < 0 ∨ i64 ≥ NumSlots then
        .error (errUnexpected "format mismatch: res[%d][0]=%+v")
      else
        match t with
        | .int j64 =>
          if j64 < 0 ∨ j64 ≥ NumSlots then
            .error (errUnexpected "format mismatch: res[%d][1]=%+v")
          else if i64 > j64 then
            .error (errUnexpected "range wrong: res[%d]=%+v (%+v)")
          else
            (parseAddrs (a :: rest)).bind fun addrs =>
            (sortTail srt addrs).bind fun sorted =>
            .ok { From := i64, To := j64, Addrs := sorted }
        | _ => .error (errUnexpected "format mismatch: res[%d][1]=%+v")
    | _ => .error (errUnexpected "format mismatch: res[%d][0]=%+v")
  | _ => .error (errUnexpected "format mismatch: res[%d]=%+v")

/-- The loop over `i` in `ParseSlotsInfo`. -/
def parseRanges (srt : SliceSorter) : List Value → Res (List SlotsRange)
  | [] => .ok []
  | e :: es =>
    (parseRange srt e).bind fun r => (parseRanges srt es).bind fun rs => .ok (r :: rs)

/-- The comparison passed to `sort.Slice` for ranges: `ranges[i].From < ranges[j].From`. -/
def rangeLess (a b : SlotsRange) : Bool := decide (a.From < b.From)

def ParseSlotsInfo (srt : SliceSorter) (res : Value) : Res (List SlotsRange) :=
  match AsError res with
  | some e => .error e
  | none =>
    match res with
    | .array rawranges =>
      (parseRanges srt rawranges).bind fun ranges => .ok (srt.sort rangeLess ranges)
    | _ => .error (errUnexpected "type is not array: %+v")

/-! ## Cluster nodes -/

/-- The type `ClusterSlotMoving`: `ClusterSlotMigrating = 1`, `ClusterSlotImporting = 2`. -/
inductive ClusterSlotMoving where
  | ClusterSlotMigrating
  | ClusterSlotImporting
deriving DecidableEq, Repr

structure ClusterSlotMigration where
  Number : Nat
  Moving : ClusterSlotMoving
  Peer : Str
deriving DecidableEq, Repr

structure ClusterInstanceInfo where
  Uuid : Str
  IpPort : Str
  Ip : Str
  Port : Int
  Port2 : Int
  Fail : Bool
  MySelf : Bool
  SlaveOf : Str
  Slots : List (Nat × Nat)
  Migrating : List ClusterSlotMigration
deriving DecidableEq, Repr

def ClusterInstanceInfo.IsMaster (ii : ClusterInstanceInfo) : Bool :=
  decide (ii.SlaveOf = [])

/-! ## `SlotsRanges` -/

/-- The map `uuid2addrs`: a missing key reads as the nil slice. -/
abbrev AddrMap := Str → List Str

def AddrMap.empty : AddrMap := fun _ => []

def AddrMap.set (m : AddrMap) (k : Str) (v : List Str) : AddrMap :=
  fun q => if q = k then v else m q

/-- First loop of `SlotsRanges` (lines 135-141): a master is put in front of
the addresses of its key, a replica is appended to those of its master. -/
def collectAddrs : List ClusterInstanceInfo → AddrMap → AddrMap
  | [], m => m
  | ii :: rest, m =>
    if ii.IsMaster then
      collectAddrs rest (m.set ii.Uuid (ii.IpPort :: m ii.Uuid))
    else
      collectAddrs rest (m.set ii.SlaveOf (m ii.SlaveOf ++ [ii.IpPort]))

/-- Second loop of `SlotsRanges` (lines 143-154). -/
def emitRanges (m : AddrMap) : List ClusterInstanceInfo → List SlotsRange
  | [] => []
  | ii :: rest =>
    if !ii.IsMaster || ii.Slots.length == 0 then emitRanges m rest
    else
      ii.Slots.map (fun slots =>
        { From := (slots.1 : Int), To := (slots.2 : Int), Addrs := m ii.Uuid })
        ++ emitRanges m rest

def SlotsRanges (srt : SliceSorter) (iis : List ClusterInstanceInfo) : List SlotsRange :=
  srt.sort rangeLess (emitRanges (collectAddrs iis AddrMap.empty) iis)

/-! ## Go library functions used by `ParseClusterInfo` -/

/-- Go's `strings.Split(s, sep)` for a one byte separator. -/
def splitOn (sep : Char) : Str → List Str
  | [] => [[]]
  | c :: cs =>
    if c = sep then [] :: splitOn sep cs
    else
      match splitOn sep cs with
      | [] => [[c]]
      | h :: t => (c :: h) :: t

/-- Go's `strings.Index(s, sub)`: position of the first occurrence, `none` for -1. -/
def indexOf (sub : Str) : Str → Option Nat
  | [] => if sub.isEmpty then some 0 else none
  | c :: cs =>
    if sub.isPrefixOf (c :: cs) then some 0 else (indexOf sub cs).map (· + 1)

/-- Go's `strings.Contains(s, sub)`. -/
def contains (s sub : Str) : Bool := (indexOf sub s).isSome

/-- Go's `strings.IndexByte(s, c)`. -/
def indexByte (c : Char) (s : Str) : Option Nat := indexOf [c] s

/-- The slice expression `s[lo:hi]`; out of range bounds panic. -/
def slice (s : Str) (lo hi : Nat) : Option Str :=
  if lo ≤ hi ∧ hi ≤ s.length then some ((s.take hi).drop lo) else none

inductive NumError where
  | ErrSyntax
  | ErrRange
deriving DecidableEq, Repr

/-- Digit loop of `strconv.ParseUint(s, 10, 64)`: a byte that is no digit is a
syntax error, leaving the range of `uint64` is a range error. -/
def parseUintLoop : Str → Nat → Except NumError Nat
  | [], n => .ok n
  | c :: cs, n =>
    if 48 ≤ c.toNat ∧ c.toNat ≤ 57 then
      if n ≥ (2 ^ 64 - 1) / 10 + 1 then .error .ErrRange
      else if n * 10 + (c.toNat - 48) > 2 ^ 64 - 1 then .error .ErrRange
      else parseUintLoop cs (n * 10 + (c.toNat - 48))
    else .error .ErrSyntax

/-- Go's `strconv.ParseUint(s, 10, 64)`; on a range error the value is the maximum. -/
def ParseUint (s : Str) : Nat × Option NumError :=
  match s with
  | [] => (0, some .ErrSyntax)
  | _ =>
    match parseUintLoop s 0 with
    | .ok n => (n, none)
    | .error .ErrSyntax => (0, some .ErrSyntax)
    | .error .ErrRange => (2 ^ 64 - 1, some .ErrRange)

/-- Go's `strconv.Atoi(s)` on a 64 bit platform, as `(value, err)`.  (The short
input fast path of `Atoi` computes the same pair as `ParseInt(s, 10, 0)`.) -/
def Atoi (s : Str) : Int × Option NumError :=
  match s with
  | [] => (0, some .ErrSyntax)
  | c :: cs =>
    let neg := decide (c = '-')
    let body := if c = '+' ∨ c = '-' then cs else c :: cs
    match ParseUint body with
    | (_, some .ErrSyntax) => (0, some .ErrSyntax)
    | (un, _) =>
      if !neg ∧ un ≥ 2 ^ 63 then (2 ^ 63 - 1, some .ErrRange)
      else if neg ∧ un > 2 ^ 63 then (-(2 ^ 63), some .ErrRange)
      else if neg then (-(un : Int), none)
      else ((un : Int), none)

/-- The conversion `uint16(x)` of an `int`. -/
def toUint16 (x : Int) : Nat := (x % 65536).toNat

/-! ## `CLUSTER NODES` -/

/-- The bracket branch of the token loop (lines 205-228). -/
def parseMigration (node : ClusterInstanceInfo) (slot : Str) : Res ClusterInstanceInfo :=
  let finish (slotn : Int) (dir : ClusterSlotMoving) (uuid : Str) : Res ClusterInstanceInfo :=
    .ok { node with
      Migrating := node.Migrating ++ [{ Number := toUint16 slotn, Moving := dir, Peer := uuid }] }
  let marked (ix : Nat) (dir : ClusterSlotMoving) : Res ClusterInstanceInfo :=
    match slice slot 1 ix with
    | none => .panic
    | some num =>
      match Atoi num with
      | (_, some _) => .error (errUnexpected "slot number is not an integer: %q")
      | (slotn, none) =>
        match slice slot (ix + 3) (slot.length - 1) with
        | none => .panic
        | some uuid => finish slotn dir uuid
  match indexOf ['-', '<', '-'] slot with
  | some ix => marked ix .ClusterSlotImporting
  | none =>
    match indexOf ['-', '>', '-'] slot with
    | some ix => marked ix .ClusterSlotMigrating
    | none => finish 0 .ClusterSlotImporting []

/-- Body of the loop over `parts[8:]` (lines 204-245). -/
def parseToken (node : ClusterInstanceInfo) (slot : Str) : Res ClusterInstanceInfo :=
  match slot with
  | [] => .panic
  | c :: _ =>
    if c = '[' then parseMigration node slot
    else
      match indexByte '-' slot with
      | some ix =>
        match Atoi (slot.take ix) with
        | (_, some _) => .error (errUnexpected "slot number is not an integer: %q")
        | (lo, none) =>
          match Atoi (slot.drop (ix + 1)) with
          | (_, some _) => .error (errUnexpected "slot number is not an integer: %q")
          | (hi, none) =>
            .ok { node with Slots := node.Slots ++ [(toUint16 lo, toUint16 hi)] }
      | none =>
        match Atoi slot with
        | (_, some _) => .error (errUnexpected "slot number is not an integer: %q")
        | (slotn, none) =>
          .ok { node with Slots := node.Slots ++ [(toUint16 slotn, toUint16 slotn)] }

/-- The loop over `parts[8:]`. -/
def parseTokens : List Str → ClusterInstanceInfo → Res ClusterInstanceInfo
  | [], node => .ok node
  | slot :: rest, node => (parseToken node slot).bind fun node1 => parseTokens rest node1

/-- Body of the loop over the lines of length at least 16 (lines 184-247). -/
def parseLine (line : Str) : Res ClusterInstanceInfo :=
  let parts := splitOn ' ' line
  match parts[1]? with
  | none => .panic
  | some p1 =>
    let ipp := splitOn '@' p1
    let addrparts := splitOn ':' (ipp.headD [])
    if ipp.length ≠ 2 ∨ addrparts.length ≠ 2 then
      .error (errUnexpected "ip-port is not in 'ip:port@port2' format, but %q")
    else
      match parts[2]? with
      | none => .panic
      | some flags =>
        let node : ClusterInstanceInfo :=
          { Uuid := parts.headD [], IpPort := ipp.headD [],
            Ip := addrparts.headD [],
            Port := (Atoi (addrparts.getD 1 [])).1,
            Port2 := (Atoi (ipp.getD 1 [])).1,
            Fail := contains flags ['f', 'a', 'i', 'l'],
            MySelf := false, SlaveOf := [], Slots := [], Migrating := [] }
        let withMaster : Res ClusterInstanceInfo :=
          if contains flags ['s', 'l', 'a', 'v', 'e'] then
            match parts[3]? with
            | none => .panic
            | some m => .ok { node with SlaveOf := m }
          else .ok node
        withMaster.bind fun node1 =>
          if parts.length < 8 then .panic else parseTokens (parts.drop 8) node1

/-- The loop over the lines (lines 180-248): lines shorter than 16 are skipped. -/
def parseLines : List Str → Res (List ClusterInstanceInfo)
  | [] => .ok []
  | line :: rest =>
    if line.length < 16 then parseLines rest
    else (parseLine line).bind fun node => (parseLines rest).bind fun nodes => .ok (node :: nodes)

/-- The comparison passed to `sort.Slice` for nodes (lines 249-258); the last
line compares the identifier of `infos[i]` with itself. -/
def nodeLess (a b : ClusterInstanceInfo) : Bool :=
  if a.IsMaster && !b.IsMaster then true
  else if !a.IsMaster && b.IsMaster then false
  else strLess a.Uuid a.Uuid

def ParseClusterInfo (srt : SliceSorter) (res : Value) : Res (List ClusterInstanceInfo) :=
  match AsError res with
  | some e => .error e
  | none =>
    match res with
    | .bytes infob =>
      (parseLines (splitOn '\n' infob)).bind fun infos => .ok (srt.sort nodeLess infos)
    | _ => .error (errUnexpected "type is not []bytes, but %t")

/-! ## Shard scanner -/

/-- The part of `ScanOpts` read by `Cluster.Scanner`. -/
structure ScanOpts where
  Cmd : Str
  Key : Str
deriving DecidableEq, Repr

/-- State of a `Scanner`: the error and the cursor of the embedded
`ScannerBase` (`none` is the nil cursor) and the pending addresses. -/
structure Scanner where
  Err : Option RedisError
  Iter : Option Str
  addrs : List Str
deriving DecidableEq, Repr

/-- The error `c.err(redis.ErrClusterConfigEmpty)`. -/
def errClusterConfigEmpty : RedisError :=
  { kind := "cluster", type := "config_empty", msg := "", props := [] }

/-- The error `c.err(redis.ErrNotConnected).With("address", addr)`. -/
def errNotConnected (addr : Str) : RedisError :=
  { kind := "connection", type := "not_connected", msg := "", props := [("address", addr)] }

/-- The constructor `Cluster.Scanner` (lines 17-45).  `masters` lists the keys of `cfg.masters`
in the order the map iteration yields them.  With `addr` the slice
`c.getConfig().slot2shard(Slot(key)).addr`, `shardAddrs key` is
`addr[:cap(addr)]`, the elements of its backing array up to its capacity: the
slice expression `addr[:1]` is bounded by the capacity, not by the length, so
it panics exactly when the capacity is 0 and is the first element of the
backing array otherwise. -/
def newScanner (masters : List Str) (shardAddrs : Str → List Str) (opts : ScanOpts) :
    Res Scanner :=
  if opts.Cmd = [] ∨ opts.Cmd = ['S', 'C', 'A', 'N'] then
    if masters.length = 0 then
      .ok { Err := some errClusterConfigEmpty, Iter := none, addrs := [] }
    else .ok { Err := none, Iter := none, addrs := masters }
  else
    match shardAddrs opts.Key with
    | [] => .panic
    | a :: _ => .ok { Err := none, Iter := none, addrs := [a] }

/-- Modelled from the spec: `ScannerBase.IterLast` is not among the sources.
The cursor "has reached its terminal value"; the nil cursor is no active
cursor and so not terminal.  Which byte strings are terminal is the
parameter `isLast`. -/
def Scanner.IterLast (isLast : Str → Bool) (s : Scanner) : Bool :=
  match s.Iter with
  | none => false
  | some c => isLast c

/-- What one call of `Next` does to the outside: it resolves the callback
(`cb.Resolve(err, 0)`, with `none` for nil) or forwards the scan with the
current cursor to the connection of an address (`s.DoNext(cb, conn)`). -/
inductive Effect where
  | resolve (err : Option RedisError)
  | forward (addr : Str) (iter : Option Str)
deriving DecidableEq, Repr

/-- The method `Scanner.Next` (lines 49-70).  `conn addr` tells whether
`connForAddress(addr)` is non-nil. -/
def Scanner.Next (isLast : Str → Bool) (conn : Str → Bool) (s : Scanner) :
    Res (Scanner × Effect) :=
  match s.Err with
  | some e => .ok (s, .resolve (some e))
  | none =>
    let dropped : Res Scanner :=
      if s.IterLast isLast then
        match s.addrs with
        | [] => .panic
        | _ :: rest => .ok { s with addrs := rest, Iter := none }
      else .ok s
    dropped.bind fun s1 =>
      if s1.addrs.length = 0 ∧ s1.Iter = none then .ok (s1, .resolve none)
      else
        match s1.addrs with
        | [] => .panic
        | a :: _ =>
          if conn a then .ok (s1, .forward a s1.Iter)
          else
            .ok ({ s1 with Err := some (errNotConnected a) },
              .resolve (some (errNotConnected a)))

/-- Modelled from the spec: the resolution of a forwarded scan by
`ScannerBase` is not among the sources.  A reply without error carries the
next cursor, which becomes the cursor "for the next call". -/
def Scanner.deliver (s : Scanner) (cursor : Str) : Scanner :=
  { s with Iter := some cursor }

/-- A run of successive `Next` calls.  Each forwarded scan is answered, before
the next call, by the next cursor of `replies`; the run stops when a forwarded
scan has no reply left or a call panics.  The result is the effect of every
call, in order. -/
def runNext (isLast : Str → Bool) (conn : Str → Bool) :
    Nat → Scanner → List Str → List Effect
  | 0, _, _ => []
  | n + 1, s, replies =>
    match s.Next isLast conn with
    | .ok (s1, .forward a it) =>
      match replies with
      | [] => [.forward a it]
      | c :: cs => .forward a it :: runNext isLast conn n (s1.deliver c) cs
    | .ok (s1, .resolve e) => .resolve e :: runNext isLast conn n s1 replies
    | _ => []

/-! ## Definitions that word the properties -/

/-- Being an error of kind Response, type Unexpected. -/
def RedisError.IsResponseUnexpected (e : RedisError) : Prop :=
  e.kind = "response" ∧ e.type = "unexpected"

/-- The address list of the ranges of master `m` when the replicas are "each
node `r`, in snapshot order, with `r.SlaveOf == m.Uuid`". -/
def addrsOfNodesNaming (iis : List ClusterInstanceInfo) (m : ClusterInstanceInfo) : List Str :=
  m.IpPort :: (iis.filter (fun r => decide (r.SlaveOf = m.Uuid))).map (·.IpPort)

/-- The address list of the ranges of master `m`: its endpoint, then the
endpoints of the replicas (nodes with a non-empty `SlaveOf`) naming `m`, in
snapshot order. -/
def addrsOfMaster (iis : List ClusterInstanceInfo) (m : ClusterInstanceInfo) : List Str :=
  m.IpPort :: (iis.filter (fun r => !r.IsMaster && decide (r.SlaveOf = m.Uuid))).map (·.IpPort)

/-- One range per pair of a master of `l` and one of its owned slot ranges,
with the address list given by `addrs`. -/
def rangesOfMasters (addrs : ClusterInstanceInfo → List Str) :
    List ClusterInstanceInfo → List SlotsRange
  | [] => []
  | m :: rest =>
    (if m.SlaveOf = [] then
      m.Slots.map (fun slots =>
        ({ From := (slots.1 : Int), To := (slots.2 : Int), Addrs := addrs m } : SlotsRange))
     else []) ++ rangesOfMasters addrs rest

/-- The text `host:port` of an address element, the port in decimal. -/
def addrText : Value → Option Str
  | .array (.bytes host :: .int port :: _) => some (host ++ ':' :: Itoa port)
  | _ => none

/-- The texts of a list of address elements. -/
def addrTexts : List Value → Option (List Str)
  | [] => some []
  | e :: es =>
    match addrText e, addrTexts es with
    | some a, some as => some (a :: as)
    | _, _ => none

/-- The range of the entry `[from, to, [h0,p0], [h1,p1], ...]`: the first
address, then the other addresses in lexicographic order. -/
def entryRange : Value → Option SlotsRange
  | .array (.int f :: .int t :: a :: rest) =>
    match addrText a, addrTexts rest with
    | some a0, some as => some { From := f, To := t, Addrs := a0 :: insertionSort strLess as }
    | _, _ => none
  | _ => none

/-- The ranges of a list of entries. -/
def entryRanges : List Value → Option (List SlotsRange)
  | [] => some []
  | e :: es =>
    match entryRange e, entryRanges es with
    | some r, some rs => some (r :: rs)
    | _, _ => none

/-- An address element is an array of length at least 2 whose first element is
a byte string and whose second is an integer. -/
def addrShapeOK : Value → Bool
  | .array (.bytes _ :: .int _ :: _) => true
  | _ => false

/-- An entry is an array of length at least 3, its from and to are integers in
`[0,16384)` with from not above to, and every element from index 2 on is a
well shaped address element. -/
def entryShapeOK : Value → Bool
  | .array (.int f :: .int t :: a :: rest) =>
    decide (0 ≤ f ∧ f < 16384) && decide (0 ≤ t ∧ t < 16384) && decide (f ≤ t) &&
      (a :: rest).all addrShapeOK
  | _ => false

/-- The reply is an array of well shaped entries. -/
def replyShapeOK : Value → Bool
  | .array entries => entries.all entryShapeOK
  | _ => false

/-- The port of an address element, when it is an integer. -/
def addrPort : Value → Option Int
  | .array (_ :: .int port :: _) => some port
  | _ => none

/-- The ports of all address elements of a reply. -/
def replyPorts : Value → List Int
  | .array entries =>
    entries.flatMap fun e =>
      match e with
      | .array (_ :: _ :: addrs) => addrs.filterMap addrPort
      | _ => []
  | _ => []

/-- A master with an empty id. -/
def emptyIdMaster : ClusterInstanceInfo :=
  { Uuid := [], IpPort := ['a'], Ip := ['a'], Port := 1, Port2 := 2, Fail := false,
    MySelf := false, SlaveOf := [], Slots := [(0, 1)], Migrating := [] }

/-- A snapshot with a replica listed before its master. -/
def replicaFirstNodes : List ClusterInstanceInfo :=
  [ { Uuid := ['r'], IpPort := ['b'], Ip := ['b'], Port := 1, Port2 := 2, Fail := false,
      MySelf := false, SlaveOf := ['m'], Slots := [], Migrating := [] },
    { Uuid := ['m'], IpPort := ['a'], Ip := ['a'], Port := 1, Port2 := 2, Fail := false,
      MySelf := false, SlaveOf := [], Slots := [(5, 9), (0, 4)], Migrating := [] } ]

/-- An outcome that is a Response/Unexpected error. -/
def Res.FailsUnexpected {α : Type} (r : Res α) : Prop :=
  ∃ e, r = .error e ∧ e.IsResponseUnexpected

/-- A `CLUSTER SLOTS` reply with two entries, the second range first; the
entry of slots 0-5 has a master and two replicas. -/
def sampleSlotsReply : Value :=
  .array
    [ .array [.int 6, .int 9, .array [.bytes ['h'], .int 7001]],
      .array [.int 0, .int 5, .array [.bytes ['h'], .int 7000],
        .array [.bytes ['r'], .int 7003], .array [.bytes ['r'], .int 7002]] ]

/-- The result of `ParseSlotsInfo` on `sampleSlotsReply`. -/
def sampleSlotsRanges : List SlotsRange :=
  [ { From := 0, To := 5,
      Addrs := [['h', ':', '7', '0', '0', '0'], ['r', ':', '7', '0', '0', '2'],
        ['r', ':', '7', '0', '0', '3']] },
    { From := 6, To := 9, Addrs := [['h', ':', '7', '0', '0', '1']] } ]

/-- A reply whose only address has the largest `int64` as its port. -/
def maxPortReply : Value :=
  .array [.array [.int 0, .int 0, .array [.bytes ['h'], .int 9223372036854775807]]]

/-! ## Well-formed record lines -/

/-- Go's `strings.Join(parts, sep)` for a one byte separator. -/
def joinWith (sep : Char) : List Str → Str
  | [] => []
  | [a] => a
  | a :: b :: rest => a ++ sep :: joinWith sep (b :: rest)

/-- The byte is a decimal digit. -/
def isDigit (c : Char) : Bool := decide (48 ≤ c.toNat ∧ c.toNat ≤ 57)

/-- The byte is a decimal digit or an ASCII letter. -/
def isAlnum (c : Char) : Bool :=
  isDigit c || decide (65 ≤ c.toNat ∧ c.toNat ≤ 90) || decide (97 ≤ c.toNat ∧ c.toNat ≤ 122)

/-- A decimal number: a non-empty string of digits. -/
def isDecimal (s : Str) : Bool := !s.isEmpty && s.all isDigit

/-- The number written by a string of digits. -/
def decVal (s : Str) : Nat := s.foldl (fun n c => n * 10 + (c.toNat - 48)) 0

/-- A field of a record: no space and no newline in it. -/
def isField (s : Str) : Bool := s.all (fun c => c != ' ' && c != '\n')

/-- The host part of an endpoint: a field without `:` and `@`. -/
def isHost (s : Str) : Bool := s.all (fun c => c != ' ' && c != '\n' && c != ':' && c != '@')

/-- A decimal slot number below 16384. -/
def isSlotText (s : Str) : Bool := isDecimal s && decide (decVal s < 16384)

/-- A peer id: non-empty, alphanumeric. -/
def isPeer (p : Str) : Bool := !p.isEmpty && p.all isAlnum

/-- The trailing tokens of a record: a slot `n`, a range `a-b`, the migration
markers `[n-<-peer]` and `[n->-peer]`. -/
inductive Tok where
  | single (n : Str)
  | range (a b : Str)
  | importing (n peer : Str)
  | migrating (n peer : Str)
deriving DecidableEq, Repr

/-- The text of a token. -/
def Tok.text : Tok → Str
  | .single n => n
  | .range a b => a ++ '-' :: b
  | .importing n p => '[' :: n ++ '-' :: '<' :: '-' :: p ++ [']']
  | .migrating n p => '[' :: n ++ '-' :: '>' :: '-' :: p ++ [']']

def Tok.wellFormed : Tok → Bool
  | .single n => isSlotText n
  | .range a b => isSlotText a && isSlotText b
  | .importing n p => isSlotText n && isPeer p
  | .migrating n p => isSlotText n && isPeer p

/-- The token is a slot or a range of slots. -/
def Tok.isSlots : Tok → Bool
  | .single _ => true
  | .range _ _ => true
  | _ => false

/-- The owned range a token stands for: `a-b` gives `(a,b)`, `n` gives `(n,n)`. -/
def Tok.slots : Tok → Option (Nat × Nat)
  | .single n => some (decVal n, decVal n)
  | .range a b => some (decVal a, decVal b)
  | _ => none

/-- The migration a token stands for. -/
def Tok.migration : Tok → Option ClusterSlotMigration
  | .importing n p => some { Number := decVal n, Moving := .ClusterSlotImporting, Peer := p }
  | .migrating n p => some { Number := decVal n, Moving := .ClusterSlotMigrating, Peer := p }
  | _ => none

/-- The fields of a record line
`id ip:port@busport flags replicaOf f5 f6 f7 f8 tok...`. -/
structure Record where
  id : Str
  ip : Str
  port : Str
  busport : Str
  flags : Str
  replicaOf : Str
  f5 : Str
  f6 : Str
  f7 : Str
  f8 : Str
  toks : List Tok
deriving DecidableEq, Repr

/-- The fields of a record, in order. -/
def Record.fields (r : Record) : List Str :=
  r.id :: (r.ip ++ ':' :: r.port ++ '@' :: r.busport) :: r.flags :: r.replicaOf ::
    r.f5 :: r.f6 :: r.f7 :: r.f8 :: r.toks.map Tok.text

/-- The record line: the fields separated by single spaces. -/
def Record.line (r : Record) : Str := joinWith ' ' r.fields

def Record.wellFormed (r : Record) : Bool :=
  isField r.id && isHost r.ip && isDecimal r.port && isDecimal r.busport &&
  isField r.flags && isField r.replicaOf && isField r.f5 && isField r.f6 &&
  isField r.f7 && isField r.f8 && r.toks.all Tok.wellFormed

/-- The node a record describes; the two ports are the values of `Atoi`. -/
def Record.node (r : Record) : ClusterInstanceInfo :=
  { Uuid := r.id, IpPort := r.ip ++ ':' :: r.port, Ip := r.ip,
    Port := (Atoi r.port).1, Port2 := (Atoi r.busport).1,
    Fail := contains r.flags ['f', 'a', 'i', 'l'], MySelf := false,
    SlaveOf := if contains r.flags ['s', 'l', 'a', 'v', 'e'] then r.replicaOf else [],
    Slots := r.toks.filterMap Tok.slots,
    Migrating := r.toks.filterMap Tok.migration }

/-- The node after a token has been read. -/
def Tok.apply (node : ClusterInstanceInfo) (t : Tok) : ClusterInstanceInfo :=
  { node with
    Slots := node.Slots ++ t.slots.toList,
    Migrating := node.Migrating ++ t.migration.toList }

/-- The record `07c... 127.0.0.1:7000@17000 myself,master - 0 0 1 connected 0-5460`. -/
def sampleRecord : Record :=
  { id := "07c...".toList, ip := "127.0.0.1".toList, port := "7000".toList,
    busport := "17000".toList, flags := "myself,master".toList, replicaOf := "-".toList,
    f5 := "0".toList, f6 := "0".toList, f7 := "1".toList, f8 := "connected".toList,
    toks := [.range "0".toList "5460".toList] }

/-- The sample record with the port `9223372036854775808`, that is `2^63`. -/
def bigPortRecord : Record :=
  { sampleRecord with port := "9223372036854775808".toList }

/-- A replica record naming the node of `sampleRecord`. -/
def sampleReplicaRecord : Record :=
  { id := "e7d...".toList, ip := "127.0.0.1".toList, port := "7003".toList,
    busport := "17003".toList, flags := "slave".toList, replicaOf := "07c...".toList,
    f5 := "0".toList, f6 := "0".toList, f7 := "4".toList, f8 := "connected".toList,
    toks := [] }

/-- A `CLUSTER NODES` text: the replica first, a line shorter than 16 bytes,
the master, and the empty line after the last newline. -/
def sampleNodesText : Str :=
  joinWith '\n' [sampleReplicaRecord.line, "vars".toList,
    sampleRecord.line, []]

/-! ## Runs of the scanner -/

/-- The scan of one shard: its address, the cursors returned before the
terminal one, and the terminal cursor. -/
structure ScanBlock where
  addr : Str
  cursors : List Str
  last : Str
deriving DecidableEq, Repr

/-- The cursors the shard returns, in order. -/
def ScanBlock.replies (b : ScanBlock) : List Str := b.cursors ++ [b.last]

/-- The calls forwarded to the shard: the first with the nil cursor, each
later one with the cursor returned before. -/
def ScanBlock.effects (b : ScanBlock) : List Effect :=
  .forward b.addr none :: b.cursors.map (fun c => .forward b.addr (some c))

/-- Two shards: `A` returns the cursors `5` and `0`, `B` returns `0` at once. -/
def sampleBlocks : List ScanBlock :=
  [ { addr := ['A'], cursors := [['5']], last := ['0'] },
    { addr := ['B'], cursors := [], last := ['0'] } ]

/-- The cursor `0` is the terminal one. -/
def isZeroCursor (c : Str) : Bool := decide (c = ['0'])

/-! ## Synthetic clusters -/

/-- A node of a synthetic cluster: a master with its owned slot ranges, or a
replica naming the id of its master. -/
inductive NodeSpec where
  | master (id ip : Str) (port busport : Nat) (ranges : List (Nat × Nat))
  | replica (id ip : Str) (port busport : Nat) (masterId : Str)
deriving DecidableEq, Repr

/-- The token of an owned range: `n` for a single slot, `a-b` otherwise. -/
def rangeTok (p : Nat × Nat) : Tok :=
  if p.1 = p.2 then .single (Nat.toDigits 10 p.1)
  else .range (Nat.toDigits 10 p.1) (Nat.toDigits 10 p.2)

/-- The record line fields of a node, as `CLUSTER NODES` prints them. -/
def NodeSpec.record : NodeSpec → Record
  | .master id ip port busport ranges =>
    { id := id, ip := ip, port := Nat.toDigits 10 port, busport := Nat.toDigits 10 busport,
      flags := "master".toList, replicaOf := "-".toList, f5 := "0".toList, f6 := "0".toList,
      f7 := "1".toList, f8 := "connected".toList, toks := ranges.map rangeTok }
  | .replica id ip port busport masterId =>
    { id := id, ip := ip, port := Nat.toDigits 10 port, busport := Nat.toDigits 10 busport,
      flags := "slave".toList, replicaOf := masterId, f5 := "0".toList, f6 := "0".toList,
      f7 := "1".toList, f8 := "connected".toList, toks := [] }

/-- The endpoint `ip:port` of a node. -/
def NodeSpec.endpoint : NodeSpec → Str
  | .master _ ip port _ _ => ip ++ ':' :: Nat.toDigits 10 port
  | .replica _ ip port _ _ => ip ++ ':' :: Nat.toDigits 10 port

def NodeSpec.id : NodeSpec → Str
  | .master id _ _ _ _ => id
  | .replica id _ _ _ _ => id

def NodeSpec.isMaster : NodeSpec → Bool
  | .master _ _ _ _ _ => true
  | .replica _ _ _ _ _ => false

/-- The slot ranges a node owns. -/
def NodeSpec.ranges : NodeSpec → List (Nat × Nat)
  | .master _ _ _ _ ranges => ranges
  | .replica _ _ _ _ _ => []

/-- The node is a replica naming the master id `mid`. -/
def NodeSpec.isReplicaOf (mid : Str) : NodeSpec → Bool
  | .master _ _ _ _ _ => false
  | .replica _ _ _ _ masterId => decide (masterId = mid)

/-- A node id: a non-empty field. -/
def isId (s : Str) : Bool := !s.isEmpty && isField s

/-- Ids are node ids, the ip is a host, every owned range is valid:
`from <= to < 16384`. -/
def NodeSpec.wellFormed : NodeSpec → Bool
  | .master id ip _ _ ranges =>
    isId id && isHost ip && ranges.all (fun p => decide (p.1 ≤ p.2) && decide (p.2 < 16384))
  | .replica id ip _ _ masterId => isId id && isHost ip && isId masterId

/-- The `CLUSTER NODES` text of a cluster: one record line per node, joined by newlines. -/
def clusterText (nodes : List NodeSpec) : Str :=
  joinWith '\n' (nodes.map (fun n => n.record.line))

/-- The ids of the masters. -/
def masterIds (nodes : List NodeSpec) : List Str :=
  (nodes.filter NodeSpec.isMaster).map NodeSpec.id

/-- All owned ranges of all masters. -/
def allRanges (nodes : List NodeSpec) : List (Nat × Nat) :=
  nodes.flatMap NodeSpec.ranges

/-- The endpoints of the replicas naming the master id `mid`. -/
def replicaEndpoints (nodes : List NodeSpec) (mid : Str) : List Str :=
  (nodes.filter (NodeSpec.isReplicaOf mid)).map NodeSpec.endpoint

/-- Two slot ranges have no slot in common. -/
def rangesDisjoint (p q : Nat × Nat) : Prop := p.2 < q.1 ∨ q.2 < p.1

/-- A cluster of two masters and two replicas, replicas listed first. -/
def sampleCluster : List NodeSpec :=
  [ .replica "r1".toList "10.0.0.3".toList 7002 17002 "m1".toList,
    .master "m2".toList "10.0.0.2".toList 7001 17001 [(8192, 16383)],
    .replica "r2".toList "10.0.0.4".toList 7003 17003 "m1".toList,
    .master "m1".toList "10.0.0.1".toList 7000 17000 [(100, 8191), (0, 99)] ]

/-! ## `HashSum` -/

/-- The offset basis of the 64 bit FNV hashes. -/
def fnvOffset64 : Nat := 14695981039346656037

/-- The prime of the 64 bit FNV hashes. -/
def fnvPrime64 : Nat := 1099511628211

/-- Writing bytes to an FNV-1a hash of 64 bits (`hash/fnv`, `New64a`): for each
byte, `hash ^= byte` and then `hash *= prime64`, in `uint64`. -/
def fnv1a (h : Nat) : Str → Nat
  | [] => h
  | c :: cs => fnv1a (((h ^^^ c.toNat) * fnvPrime64) % 2 ^ 64) cs

/-- The verb `%v` of a `bool`. -/
def boolText (b : Bool) : Str := if b then ['t', 'r', 'u', 'e'] else ['f', 'a', 'l', 's', 'e']

/-- The text written for the slot ranges of a node (lines 114-116): for each
range `"\t%d-%d"`. -/
def slotsText : List (Nat × Nat) → Str
  | [] => []
  | slots :: rest =>
    '\t' :: Nat.toDigits 10 slots.1 ++ '-' :: Nat.toDigits 10 slots.2 ++ slotsText rest

/-- The text written for one node (lines 113-117):
`"%s\t%s\t%d\t%v\t%s"` of `Uuid, IpPort, Port2, Fail, SlaveOf`, the slot
ranges, and a newline. -/
def nodeText (ii : ClusterInstanceInfo) : Str :=
  ii.Uuid ++ '\t' :: ii.IpPort ++ '\t' :: Itoa ii.Port2 ++ '\t' :: boolText ii.Fail ++
    '\t' :: ii.SlaveOf ++ slotsText ii.Slots ++ ['\n']

def HashSum (iis : List ClusterInstanceInfo) : Nat :=
  iis.foldl (fun hsh ii => fnv1a hsh (nodeText ii)) fnvOffset64

/-- The fields of a node that `HashSum` is documented to fold. -/
def hashedFields (ii : ClusterInstanceInfo) :
    Str × Str × Int × Bool × Str × List (Nat × Nat) :=
  (ii.Uuid, ii.IpPort, ii.Port2, ii.Fail, ii.SlaveOf, ii.Slots)

/-- The node list with the `Fail` flag of node `i` negated. -/
def flipFailAt : Nat → List ClusterInstanceInfo → List ClusterInstanceInfo
  | _, [] => []
  | 0, ii :: rest => { ii with Fail := !ii.Fail } :: rest
  | i + 1, ii :: rest => ii :: flipFailAt i rest

/-! ## `CollectAddressesAndMigrations` -/

/-- The keys present in a non-nil `map[string]struct{}`. -/
abbrev AddrSet := Str → Bool

/-- The keys present in a non-nil `map[uint16]struct{}`. -/
abbrev SlotSet := Nat → Bool

/-- The keys after the assignment `addrs[k] = struct{}{}` to a non-nil map. -/
def AddrSet.insert (s : AddrSet) (k : Str) : AddrSet := fun q => decide (q = k) || s q

/-- The keys after the assignment `migrating[k] = struct{}{}` to a non-nil map. -/
def SlotSet.insert (s : SlotSet) (k : Nat) : SlotSet := fun q => decide (q = k) || s q

/-- The assignment `addrs[k] = struct{}{}` (line 125); `none` is the nil map,
on which an assignment panics. -/
def assignAddr : Option AddrSet → Str → Res (Option AddrSet)
  | none, _ => .panic
  | some s, k => .ok (some (s.insert k))

/-- The inner loop of `CollectAddressesAndMigrations` (lines 127-129); `none` is
the nil map, on which the assignment of line 128 panics. -/
def collectMigrations : List ClusterSlotMigration → Option SlotSet → Res (Option SlotSet)
  | [], migrating => .ok migrating
  | _ :: _, none => .panic
  | m :: rest, some s => collectMigrations rest (some (s.insert m.Number))

/-- The two caller-supplied maps after `CollectAddressesAndMigrations` (lines
122-131).  A map parameter is `none` for the nil map and `some` of its keys
otherwise; the call panics when it assigns into a nil map. -/
def CollectAddressesAndMigrations :
    List ClusterInstanceInfo → Option AddrSet → Option SlotSet →
      Res (Option AddrSet × Option SlotSet)
  | [], addrs, migrating => .ok (addrs, migrating)
  | ii :: rest, addrs, migrating =>
    (if strLess [] ii.Ip && decide (ii.Port ≠ 0) then assignAddr addrs ii.IpPort
      else .ok addrs).bind fun addrs1 =>
    (collectMigrations ii.Migrating migrating).bind fun migrating1 =>
    CollectAddressesAndMigrations rest addrs1 migrating1

/-! ## `ScanResponse` -/

/-- Modelled from the spec: `Error` of package `resp` is not among the sources;
a reply that is itself an error value is that error, every other reply is no
error. -/
def Error : Value → Option RedisError
  | .err e => some e
  | _ => none

/-- The error `re.New(re.ErrKindResponse, re.ErrResponseFormat).With("response", res)`;
the attached reply is not kept. -/
def errFormat : RedisError :=
  { kind := "response", type := "format", msg := "", props := [] }

/-- The loop over `keys` in `ScanResponse` (lines 25-31); `none` is the jump to `wrong`. -/
def keysToStrings : List Value → Option (List Str)
  | [] => some []
  | k :: rest =>
    match k with
    | .bytes b =>
      match keysToStrings rest with
      | some strs => some (b :: strs)
      | none => none
    | _ => none

/-- The function `ScanResponse` (lines 7-36): `(cursor, keys)` or an error; indexing
`arr[0]` and `arr[1]` beyond the length of `arr` panics. -/
def ScanResponse (res : Value) : Res (Str × List Str) :=
  match Error res with
  | some e => .error e
  | none =>
    match res with
    | .array arr =>
      match arr with
      | [] => .panic
      | a0 :: rest =>
        match a0 with
        | .bytes it =>
          match rest with
          | [] => .panic
          | a1 :: _ =>
            match a1 with
            | .array keys =>
              match keysToStrings keys with
              | some strs => .ok (it, strs)
              | none => .error errFormat
            | _ => .error errFormat
        | _ => .error errFormat
    | _ => .error errFormat

/-! ## Reachable scanner states -/

/-- The states a scanner can be in: after a construction that left a non-empty
pending list, after a `Next` call with any connection availability, and after
the resolution of a forwarded scan, which may store any cursor and any error
(the resolution by `ScannerBase` is not among the sources, so nothing is
assumed of it but that it leaves the pending addresses alone). -/
inductive Scanner.Reachable (isLast : Str → Bool) : Scanner → Prop where
  | init (masters : List Str) (shardAddrs : Str → List Str) (opts : ScanOpts) (s : Scanner) :
      newScanner masters shardAddrs opts = .ok s → s.addrs ≠ [] → Scanner.Reachable isLast s
  | next (conn : Str → Bool) (s s1 : Scanner) (eff : Effect) :
      Scanner.Reachable isLast s → s.Next isLast conn = .ok (s1, eff) →
      Scanner.Reachable isLast s1
  | reply (conn : Str → Bool) (s s1 : Scanner) (a : Str) (it : Option Str)
      (err : Option RedisError) (cursor : Option Str) :
      Scanner.Reachable isLast s → s.Next isLast conn = .ok (s1, .forward a it) →
      Scanner.Reachable isLast { s1 with Err := err, Iter := cursor }

/-- A scanner that failed for want of a connection to `A`. -/
def failedScanner : Scanner :=
  { Err := some (errNotConnected ['A']), Iter := some ['7'], addrs := [['A'], ['B']] }

/-- Two snapshots that differ in `Ip`, `Port`, `MySelf` and the migrations only. -/
def hashNodesA : List ClusterInstanceInfo :=
  [ { Uuid := ['m'], IpPort := ['a'], Ip := ['a'], Port := 1, Port2 := 2, Fail := false,
      MySelf := false, SlaveOf := [], Slots := [(0, 4)], Migrating := [] } ]

def hashNodesB : List ClusterInstanceInfo :=
  [ { Uuid := ['m'], IpPort := ['a'], Ip := ['x'], Port := 9, Port2 := 2, Fail := false,
      MySelf := true, SlaveOf := [], Slots := [(0, 4)],
      Migrating := [{ Number := 3, Moving := .ClusterSlotImporting, Peer := ['p'] }] } ]

/-- The sum of the bytes of a text. -/
def byteSum (s : Str) : Nat := (s.map Char.toNat).sum

/-- A record line whose tokens are the slot `70000`, the range `5-3` and the
marker `[70000->-abc]`. -/
def outOfRangeLine : Str :=
  "07c... 127.0.0.1:7000@17000 myself,master - 0 0 1 connected 70000 5-3 [70000->-abc]".toList

/-- A record line whose trailing token `[100` has no marker. -/
def unmarkedBracketLine : Str :=
  "07c... 127.0.0.1:7000@17000 myself,master - 0 0 1 connected [100".toList

/-- A record line whose trailing token `[100-<-abc123` has no closing bracket. -/
def unclosedBracketLine : Str :=
  "07c... 127.0.0.1:7000@17000 myself,master - 0 0 1 connected [100-<-abc123".toList

/-- The node of the sample line without tokens. -/
def sampleNodeNoTokens : ClusterInstanceInfo :=
  { Uuid := "07c...".toList, IpPort := "127.0.0.1:7000".toList, Ip := "127.0.0.1".toList,
    Port := 7000, Port2 := 17000, Fail := false, MySelf := false, SlaveOf := [],
    Slots := [], Migrating := [] }

/-- A line of 16 bytes without a space. -/
def oneFieldLine : Str := "aaaaaaaaaaaaaaaa".toList

/-- A line of more than 16 bytes with three fields. -/
def threeFieldLine : Str := "07c... 127.0.0.1:7000@17000 master".toList

/-- A record line with two spaces before its token. -/
def doubleSpaceLine : Str :=
  "07c... 127.0.0.1:7000@17000 myself,master - 0 0 1 connected  5".toList

/-- A record line whose trailing token `[100-<-` ends right after the marker. -/
def markerOnlyLine : Str :=
  "07c... 127.0.0.1:7000@17000 myself,master - 0 0 1 connected [100-<-".toList

/-! # Theorems -/

/-! ## The string order is a strict total order -/

theorem strLess_asymm : ∀ a b : Str, strLess a b = true → strLess b a = false
  | [], [] => by simp [strLess]
  | [], _ :: _ => by simp [strLess]
  | _ :: _, [] => by simp [strLess]
  | a :: as, b :: bs => by
    intro h
    unfold strLess at h ⊢
    by_cases h1 : a.toNat < b.toNat
    · have h2 : ¬ b.toNat < a.toNat := by omega
      simp [h1, h2]
    · by_cases h2 : b.toNat < a.toNat
      · simp [h1, h2] at h
      · simp only [h1, h2, if_false] at h ⊢
        exact strLess_asymm as bs h

theorem strLess_trans_compl : ∀ a b c : Str,
    strLess b a = false → strLess c b = false → strLess c a = false
  | [], _, [] => by simp [strLess]
  | [], [], _ :: _ => by simp [strLess]
  | [], _ :: _, _ :: _ => by simp [strLess]
  | _ :: _, [], _ => by simp [strLess]
  | _ :: _, _ :: _, [] => by simp [strLess]
  | a :: as, b :: bs, c :: cs => by
    intro h1 h2
    unfold strLess at h1 h2 ⊢
    by_cases hba : b.toNat < a.toNat
    · simp [hba] at h1
    · by_cases hab : a.toNat < b.toNat
      · simp only [hba, hab, if_true, if_false] at h1
        by_cases hcb : c.toNat < b.toNat
        · simp [hcb] at h2
        · have hca : ¬ c.toNat < a.toNat := by omega
          have hac : a.toNat < c.toNat := by omega
          simp [hca, hac]
      · simp only [hba, hab, if_false] at h1
        by_cases hcb : c.toNat < b.toNat
        · simp [hcb] at h2
        · by_cases hbc : b.toNat < c.toNat
          · have hca : ¬ c.toNat < a.toNat := by omega
            have hac : a.toNat < c.toNat := by omega
            simp [hca, hac]
          · simp only [hcb, hbc, if_false] at h2
            have hca : ¬ c.toNat < a.toNat := by omega
            have hac : ¬ a.toNat < c.toNat := by omega
            simp only [hca, hac, if_false]
            exact strLess_trans_compl as bs cs h1 h2

theorem char_eq_of_toNat_eq (a b : Char) (h : a.toNat = b.toNat) : a = b := by
  apply Char.ext
  apply UInt32.ext
  exact h

theorem strLess_antisymm : ∀ a b : Str,
    strLess a b = false → strLess b a = false → a = b
  | [], [] => by simp
  | [], _ :: _ => by simp [strLess]
  | _ :: _, [] => by simp [strLess]
  | a :: as, b :: bs => by
    intro h1 h2
    unfold strLess at h1 h2
    by_cases hab : a.toNat < b.toNat
    · simp [hab] at h1
    · by_cases hba : b.toNat < a.toNat
      · simp [hba] at h2
      · simp only [hab, hba, if_false] at h1 h2
        have : a = b := char_eq_of_toNat_eq a b (by omega)
        rw [this, strLess_antisymm as bs h1 h2]

/-- Two ordered permutations of the same strings are the same list. -/
theorem strSorted_unique : ∀ (l1 l2 : List Str), l1.Perm l2 →
    l1.Pairwise (fun x y => strLess y x = false) →
    l2.Pairwise (fun x y => strLess y x = false) → l1 = l2 := by
  intro l1 l2 hp h1 h2
  haveI : IsAntisymm Str (fun x y => strLess y x = false) :=
    ⟨fun a b hab hba => strLess_antisymm a b hba hab⟩
  exact List.eq_of_perm_of_sorted hp h1 h2

/-! ## Routing table -/

theorem rangeLess_asymm (a b : SlotsRange) (h : rangeLess a b = true) :
    rangeLess b a = false := by
  simp only [rangeLess, decide_eq_true_eq, decide_eq_false_iff_not] at h ⊢
  omega

theorem rangeLess_trans_compl (a b c : SlotsRange) (h1 : rangeLess b a = false)
    (h2 : rangeLess c b = false) : rangeLess c a = false := by
  simp only [rangeLess, decide_eq_false_iff_not] at h1 h2 ⊢
  omega

/-- Sorting ranges by `rangeLess` leaves them ascending by `From`. -/
theorem sort_rangeLess_ascending (srt : SliceSorter) (l : List SlotsRange) :
    (srt.sort rangeLess l).Pairwise (fun a b => a.From ≤ b.From) := by
  refine (srt.sorted rangeLess l rangeLess_asymm rangeLess_trans_compl).imp ?_
  intro a b h
  simp only [rangeLess, decide_eq_false_iff_not] at h
  omega

/-- Value of `uuid2addrs[k]` after the first loop: the masters with id `k`
in reverse order, the old value, the replicas naming `k` in order. -/
theorem collectAddrs_apply (l : List ClusterInstanceInfo) (m : AddrMap) (k : Str) :
    collectAddrs l m k =
      ((l.filter (fun r => r.IsMaster && decide (r.Uuid = k))).map (·.IpPort)).reverse
        ++ m k
        ++ (l.filter (fun r => !r.IsMaster && decide (r.SlaveOf = k))).map (·.IpPort) := by
  induction l generalizing m with
  | nil => simp [collectAddrs]
  | cons ii rest ih =>
    unfold collectAddrs
    by_cases hm : ii.IsMaster = true
    · simp only [hm, if_true]
      rw [ih]
      by_cases hk : ii.Uuid = k
      · simp [AddrMap.set, hk, hm, List.filter_cons]
      · have hk2 : ¬ k = ii.Uuid := fun h => hk h.symm
        simp [AddrMap.set, hk, hk2, hm, List.filter_cons]
    · have hm2 : ii.IsMaster = false := by simpa using hm
      simp only [hm2, Bool.false_eq_true, if_false]
      rw [ih]
      by_cases hk : ii.SlaveOf = k
      · simp [AddrMap.set, hk, hm2, List.filter_cons]
      · have hk2 : ¬ k = ii.SlaveOf := fun h => hk h.symm
        simp [AddrMap.set, hk, hk2, hm2, List.filter_cons]

theorem filter_uuid_of_nodup (l : List ClusterInstanceInfo)
    (hnd : (l.map (·.Uuid)).Nodup) (m : ClusterInstanceInfo) (hm : m ∈ l) :
    l.filter (fun r => decide (r.Uuid = m.Uuid)) = [m] := by
  induction l with
  | nil => cases hm
  | cons x xs ih =>
    rw [List.map_cons, List.nodup_cons] at hnd
    rcases List.mem_cons.mp hm with h | h
    · subst h
      have : xs.filter (fun r => decide (r.Uuid = m.Uuid)) = [] := by
        rw [List.filter_eq_nil_iff]
        intro r hr hru
        apply hnd.1
        have : r.Uuid = m.Uuid := by simpa using hru
        rw [← this]
        exact List.mem_map_of_mem _ hr
      simp [List.filter_cons, this]
    · have hne : ¬ x.Uuid = m.Uuid := by
        intro hx
        apply hnd.1
        rw [hx]
        exact List.mem_map_of_mem _ h
      simp [List.filter_cons, hne, ih hnd.2 h]

/-- With pairwise distinct ids, the address list built for a master is its
endpoint followed by the endpoints of its replicas. -/
theorem collectAddrs_master (iis : List ClusterInstanceInfo)
    (hnd : (iis.map (·.Uuid)).Nodup) (m : ClusterInstanceInfo) (hm : m ∈ iis)
    (hmaster : m.IsMaster = true) :
    collectAddrs iis AddrMap.empty m.Uuid = addrsOfMaster iis m := by
  rw [collectAddrs_apply]
  have h1 : iis.filter (fun r => r.IsMaster && decide (r.Uuid = m.Uuid)) = [m] := by
    have := filter_uuid_of_nodup iis hnd m hm
    have h2 : iis.filter (fun r => r.IsMaster && decide (r.Uuid = m.Uuid))
        = (iis.filter (fun r => decide (r.Uuid = m.Uuid))).filter (fun r => r.IsMaster) := by
      rw [List.filter_filter]
    rw [h2, this]
    simp [List.filter_cons, hmaster]
  rw [h1]
  simp [AddrMap.empty, addrsOfMaster]

theorem emitRanges_eq (am : AddrMap) (addrs : ClusterInstanceInfo → List Str)
    (l : List ClusterInstanceInfo)
    (h : ∀ m ∈ l, m.IsMaster = true → am m.Uuid = addrs m) :
    emitRanges am l = rangesOfMasters addrs l := by
  induction l with
  | nil => simp [emitRanges, rangesOfMasters]
  | cons ii rest ih =>
    have ihr := ih (fun m hm => h m (List.mem_cons_of_mem _ hm))
    unfold emitRanges rangesOfMasters
    rw [ihr]
    by_cases hm : ii.IsMaster = true
    · have hs : ii.SlaveOf = [] := by simpa [ClusterInstanceInfo.IsMaster] using hm
      have ha := h ii (List.mem_cons_self _ _) hm
      by_cases hl : ii.Slots.length = 0
      · have : ii.Slots = [] := List.length_eq_zero.mp hl
        simp [hm, hs, this]
      · simp [hm, hs, hl, ha]
    · have hm2 : ii.IsMaster = false := by simpa using hm
      have hs : ¬ ii.SlaveOf = [] := by simpa [ClusterInstanceInfo.IsMaster] using hm
      simp [hm2, hs]

/-- The routing table before sorting. -/
theorem emitRanges_collectAddrs (iis : List ClusterInstanceInfo)
    (hnd : (iis.map (·.Uuid)).Nodup) :
    emitRanges (collectAddrs iis AddrMap.empty) iis
      = rangesOfMasters (addrsOfMaster iis) iis :=
  emitRanges_eq _ _ iis (fun m hm hmaster => collectAddrs_master iis hnd m hm hmaster)

/-- C1, as stated, fails: for the single master with an empty id, whose only
node naming the empty id is itself, the routing table has the one-address range
and is not a permutation of the ranges whose replicas are "each node `r` with
`r.SlaveOf == m.Uuid`". -/
theorem slotsRanges_nodes_naming_counterexample :
    ([emptyIdMaster].map (·.Uuid)).Nodup ∧
    SlotsRanges insertionSorter [emptyIdMaster] = [{ From := 0, To := 1, Addrs := [['a']] }] ∧
    ¬ ((SlotsRanges insertionSorter [emptyIdMaster]).Pairwise (fun a b => a.From ≤ b.From) ∧
       (SlotsRanges insertionSorter [emptyIdMaster]).Perm
         (rangesOfMasters (addrsOfNodesNaming [emptyIdMaster]) [emptyIdMaster])) := by
  refine ⟨by decide, by decide, ?_⟩
  intro h
  have h1 : SlotsRanges insertionSorter [emptyIdMaster]
      = [{ From := 0, To := 1, Addrs := [['a']] }] := by decide
  have h2 : rangesOfMasters (addrsOfNodesNaming [emptyIdMaster]) [emptyIdMaster]
      = [{ From := 0, To := 1, Addrs := [['a'], ['a']] }] := by decide
  rw [h1, h2] at h
  have := List.perm_singleton.mp h.2
  revert this
  decide

/-- C1 (amended): for node lists with pairwise distinct ids, in any order,
`SlotsRanges` is ascending by `From` and is a permutation of one range per
master and owned slot range, with the master's endpoint first, followed by the
endpoints of the replicas (nodes with non-empty `SlaveOf`) naming the master,
in snapshot order. -/
theorem slotsRanges_sorted_perm (srt : SliceSorter) (iis : List ClusterInstanceInfo)
    (hnd : (iis.map (·.Uuid)).Nodup) :
    (SlotsRanges srt iis).Pairwise (fun a b => a.From ≤ b.From) ∧
    (SlotsRanges srt iis).Perm (rangesOfMasters (addrsOfMaster iis) iis) := by
  unfold SlotsRanges
  refine ⟨sort_rangeLess_ascending srt _, ?_⟩
  rw [← emitRanges_collectAddrs iis hnd]
  exact srt.perm _ _

theorem slotsRanges_sorted_perm_witness :
    (replicaFirstNodes.map (·.Uuid)).Nodup ∧
    ((SlotsRanges insertionSorter replicaFirstNodes).Pairwise (fun a b => a.From ≤ b.From) ∧
     (SlotsRanges insertionSorter replicaFirstNodes).Perm
       (rangesOfMasters (addrsOfMaster replicaFirstNodes) replicaFirstNodes)) :=
  ⟨by decide, slotsRanges_sorted_perm insertionSorter replicaFirstNodes (by decide)⟩

/-! ## `ParseSlotsInfo` -/

theorem Res.bind_eq_ok {α β : Type} (r : Res α) (f : α → Res β) (b : β) :
    r.bind f = .ok b ↔ ∃ a, r = .ok a ∧ f a = .ok b := by
  cases r <;> simp [Res.bind]

/-- Any routine meeting the sorting contract sorts strings as insertion sort does. -/
theorem sort_strLess_eq (srt : SliceSorter) (l : List Str) :
    srt.sort strLess l = insertionSort strLess l := by
  apply strSorted_unique
  · exact (srt.perm strLess l).trans (insertionSorter.perm strLess l).symm
  · exact srt.sorted strLess l strLess_asymm strLess_trans_compl
  · exact insertionSorter.sorted strLess l strLess_asymm strLess_trans_compl

theorem parseAddr_ok (e : Value) (s : Str) (h : parseAddr e = .ok s) :
    addrText e = some s := by
  unfold parseAddr at h
  split at h
  · rename_i hd p tl
    split at h
    · split at h
      · cases h
      · simp only [Res.ok.injEq] at h
        simp [addrText, h]
    · cases h
  · cases h

theorem parseAddrs_ok (es : List Value) (ss : List Str) (h : parseAddrs es = .ok ss) :
    addrTexts es = some ss := by
  induction es generalizing ss with
  | nil =>
    simp only [parseAddrs, Res.ok.injEq] at h
    simp [addrTexts, ← h]
  | cons e es ih =>
    unfold parseAddrs at h
    obtain ⟨a, ha, h⟩ := (Res.bind_eq_ok _ _ _).mp h
    obtain ⟨as, has, h⟩ := (Res.bind_eq_ok _ _ _).mp h
    simp only [Res.ok.injEq] at h
    simp [addrTexts, parseAddr_ok e a ha, ih as has, ← h]

theorem parseAddrs_cons_ne_nil (e : Value) (es : List Value) (ss : List Str)
    (h : parseAddrs (e :: es) = .ok ss) : ss ≠ [] := by
  unfold parseAddrs at h
  obtain ⟨a, _, h⟩ := (Res.bind_eq_ok _ _ _).mp h
  obtain ⟨as, _, h⟩ := (Res.bind_eq_ok _ _ _).mp h
  simp only [Res.ok.injEq] at h
  simp [← h]

/-- A range accepted by the loop body is the range of its entry, lies within
the slots and has an address. -/
theorem parseRange_ok (srt : SliceSorter) (e : Value) (r : SlotsRange)
    (h : parseRange srt e = .ok r) :
    entryRange e = some r ∧ (0 ≤ r.From ∧ r.From ≤ r.To ∧ r.To < 16384) ∧ r.Addrs ≠ [] := by
  unfold parseRange at h
  split at h
  · rename_i f t a rest
    split at h
    · rename_i i64
      split at h
      · cases h
      · rename_i hi
        split at h
        · rename_i j64
          split at h
          · cases h
          · rename_i hj
            split at h
            · cases h
            · rename_i hij
              obtain ⟨addrs, haddrs, hb⟩ := (Res.bind_eq_ok _ _ _).mp h
              obtain ⟨sorted, hsorted, hc⟩ := (Res.bind_eq_ok _ _ _).mp hb
              simp only [Res.ok.injEq] at hc
              have hne := parseAddrs_cons_ne_nil a rest addrs haddrs
              have htexts := parseAddrs_ok _ _ haddrs
              cases addrs with
              | nil => exact absurd rfl hne
              | cons a0 as =>
                simp only [sortTail, Res.ok.injEq] at hsorted
                simp only [addrTexts] at htexts
                subst hc
                subst hsorted
                simp only [NumSlots] at hi hj
                refine ⟨?_, ⟨?_, ?_, ?_⟩, by simp⟩
                rotate_left
                · show 0 ≤ i64
                  omega
                · show i64 ≤ j64
                  omega
                · show j64 < 16384
                  omega
                cases h1 : addrText a with
                | none => simp [h1] at htexts
                | some x =>
                  cases h2 : addrTexts rest with
                  | none => simp [h1, h2] at htexts
                  | some xs =>
                    simp only [h1, h2, Option.some.injEq, List.cons.injEq] at htexts
                    simp only [entryRange]
                    rw [h1, h2]
                    simp [htexts.1, htexts.2, sort_strLess_eq]
        · cases h
    · cases h
  · cases h

theorem parseRanges_ok (srt : SliceSorter) (es : List Value) (rs : List SlotsRange)
    (h : parseRanges srt es = .ok rs) :
    entryRanges es = some rs ∧ rs.length = es.length ∧
    ∀ r ∈ rs, (0 ≤ r.From ∧ r.From ≤ r.To ∧ r.To < 16384) ∧ r.Addrs ≠ [] := by
  induction es generalizing rs with
  | nil =>
    simp only [parseRanges, Res.ok.injEq] at h
    simp [entryRanges, ← h]
  | cons e es ih =>
    unfold parseRanges at h
    obtain ⟨r, hr, h⟩ := (Res.bind_eq_ok _ _ _).mp h
    obtain ⟨rs1, hrs, h⟩ := (Res.bind_eq_ok _ _ _).mp h
    simp only [Res.ok.injEq] at h
    obtain ⟨h1, h2, h3⟩ := parseRange_ok srt e r hr
    obtain ⟨g1, g2, g3⟩ := ih rs1 hrs
    subst h
    refine ⟨by simp [entryRanges, h1, g1], by simp [g2], ?_⟩
    intro x hx
    rcases List.mem_cons.mp hx with hx | hx
    · subst hx; exact ⟨h2, h3⟩
    · exact g3 x hx

/-- Shape of a successful `ParseSlotsInfo`. -/
theorem parseSlotsInfo_ok (srt : SliceSorter) (res : Value) (out : List SlotsRange)
    (h : ParseSlotsInfo srt res = .ok out) :
    ∃ entries ranges, res = .array entries ∧ parseRanges srt entries = .ok ranges ∧
      out = srt.sort rangeLess ranges := by
  unfold ParseSlotsInfo at h
  split at h
  · cases h
  · split at h
    · rename_i rawranges _
      obtain ⟨ranges, hr, hb⟩ := (Res.bind_eq_ok _ _ _).mp h
      simp only [Res.ok.injEq] at hb
      exact ⟨rawranges, ranges, rfl, hr, hb.symm⟩
    · cases h

/-- C2: on success `ParseSlotsInfo` returns one range per top-level entry,
ascending by `From`, a permutation of the ranges of the entries, where the
range of `[from, to, [h0,p0], [h1,p1], ...]` has the addresses `h0:p0` followed
by the other `hk:pk` in lexicographic order, ports in decimal. -/
theorem parseSlotsInfo_sorted_perm (srt : SliceSorter) (res : Value) (out : List SlotsRange)
    (h : ParseSlotsInfo srt res = .ok out) :
    ∃ entries ranges, res = .array entries ∧ entryRanges entries = some ranges ∧
      out.length = entries.length ∧
      out.Pairwise (fun a b => a.From ≤ b.From) ∧
      out.Perm ranges := by
  obtain ⟨entries, ranges, hres, hr, hout⟩ := parseSlotsInfo_ok srt res out h
  obtain ⟨h1, h2, _⟩ := parseRanges_ok srt entries ranges hr
  refine ⟨entries, ranges, hres, h1, ?_, ?_, ?_⟩
  · rw [hout, (srt.perm rangeLess ranges).length_eq, h2]
  · rw [hout]; exact sort_rangeLess_ascending srt ranges
  · rw [hout]; exact srt.perm rangeLess ranges

/-- C3: every range returned by `ParseSlotsInfo` satisfies
`0 <= From <= To < 16384` and has a non-empty address list. -/
theorem parseSlotsInfo_range_invariant (srt : SliceSorter) (res : Value)
    (out : List SlotsRange) (h : ParseSlotsInfo srt res = .ok out) :
    ∀ r ∈ out, (0 ≤ r.From ∧ r.From ≤ r.To ∧ r.To < 16384) ∧ r.Addrs ≠ [] := by
  obtain ⟨entries, ranges, _, hr, hout⟩ := parseSlotsInfo_ok srt res out h
  obtain ⟨_, _, h3⟩ := parseRanges_ok srt entries ranges hr
  intro r hr
  rw [hout] at hr
  exact h3 r ((srt.perm rangeLess ranges).subset hr)

theorem failsUnexpected_errUnexpected {α : Type} (msg : String) :
    (Res.error (errUnexpected msg) : Res α).FailsUnexpected :=
  ⟨_, rfl, rfl, rfl⟩

theorem Res.bind_failsUnexpected {α β : Type} (r : Res α) (f : α → Res β)
    (h : r.FailsUnexpected) : (r.bind f).FailsUnexpected := by
  obtain ⟨e, he, hu⟩ := h
  exact ⟨e, by simp [he, Res.bind], hu⟩

theorem wrapInt64_small (x : Int) (h1 : -(2 ^ 63) ≤ x) (h2 : x < 2 ^ 63) : wrapInt64 x = x := by
  unfold wrapInt64
  norm_num at h1 h2 ⊢
  omega

/-- An address element: accepted exactly on good shape and port check. -/
theorem parseAddr_cases (e : Value) :
    (addrShapeOK e = false → (parseAddr e).FailsUnexpected) ∧
    (addrShapeOK e = true → ∀ p, addrPort e = some p →
      ((p ≤ 0 ∨ wrapInt64 (p + 10000) > 65535) → (parseAddr e).FailsUnexpected) ∧
      (¬ (p ≤ 0 ∨ wrapInt64 (p + 10000) > 65535) → ∃ s, parseAddr e = .ok s)) := by
  unfold parseAddr
  split
  · rename_i h p tl
    split
    · rename_i host port
      refine ⟨by simp [addrShapeOK], ?_⟩
      intro _ q hq
      simp only [addrPort, Option.some.injEq] at hq
      subst hq
      constructor
      · intro hc
        rw [if_pos hc]
        exact failsUnexpected_errUnexpected _
      · intro hc
        rw [if_neg hc]
        exact ⟨_, rfl⟩
    · rename_i hne
      refine ⟨fun _ => failsUnexpected_errUnexpected _, ?_⟩
      intro hs
      exfalso
      cases h <;> cases p <;> simp [addrShapeOK] at hs
      exact hne _ _ rfl rfl
  · rename_i hne
    refine ⟨fun _ => failsUnexpected_errUnexpected _, ?_⟩
    intro hs
    exfalso
    cases e with
    | array xs =>
      rcases xs with _ | ⟨h, _ | ⟨p, tl⟩⟩
      · simp [addrShapeOK] at hs
      · cases h <;> simp [addrShapeOK] at hs
      · exact hne h p tl rfl
    | _ => simp [addrShapeOK] at hs

theorem addrShapeOK_port (e : Value) (h : addrShapeOK e = true) : ∃ p, addrPort e = some p := by
  cases e with
  | array xs =>
    rcases xs with _ | ⟨h0, _ | ⟨p, tl⟩⟩
    · simp [addrShapeOK] at h
    · cases h0 <;> simp [addrShapeOK] at h
    · cases h0 <;> cases p <;> simp [addrShapeOK] at h
      exact ⟨_, rfl⟩
  | _ => simp [addrShapeOK] at h

theorem parseAddr_total (e : Value) :
    (∃ s, parseAddr e = .ok s) ∨ (parseAddr e).FailsUnexpected := by
  obtain ⟨h1, h2⟩ := parseAddr_cases e
  cases hs : addrShapeOK e with
  | false => exact Or.inr (h1 hs)
  | true =>
    obtain ⟨p, hp⟩ := addrShapeOK_port e hs
    by_cases hc : p ≤ 0 ∨ wrapInt64 (p + 10000) > 65535
    · exact Or.inr ((h2 hs p hp).1 hc)
    · exact Or.inl ((h2 hs p hp).2 hc)

theorem parseAddr_ok_shape (e : Value) (s : Str) (h : parseAddr e = .ok s) :
    addrShapeOK e = true := by
  cases hs : addrShapeOK e with
  | true => rfl
  | false =>
    obtain ⟨err, he, _⟩ := (parseAddr_cases e).1 hs
    rw [h] at he
    cases he

theorem parseAddrs_total (es : List Value) :
    (∃ ss, parseAddrs es = .ok ss) ∨ (parseAddrs es).FailsUnexpected := by
  induction es with
  | nil => exact Or.inl ⟨[], rfl⟩
  | cons e es ih =>
    unfold parseAddrs
    rcases parseAddr_total e with ⟨s, hs⟩ | hf
    · rw [hs]
      rcases ih with ⟨ss, hss⟩ | hf
      · exact Or.inl ⟨s :: ss, by simp [Res.bind, hss]⟩
      · exact Or.inr (by simpa [Res.bind] using Res.bind_failsUnexpected _ _ hf)
    · exact Or.inr (Res.bind_failsUnexpected _ _ hf)

theorem parseAddrs_ok_shape (es : List Value) (ss : List Str) (h : parseAddrs es = .ok ss) :
    es.all addrShapeOK = true := by
  induction es generalizing ss with
  | nil => rfl
  | cons e es ih =>
    unfold parseAddrs at h
    obtain ⟨a, ha, hb⟩ := (Res.bind_eq_ok _ _ _).mp h
    obtain ⟨as, has, _⟩ := (Res.bind_eq_ok _ _ _).mp hb
    simp [List.all_cons, parseAddr_ok_shape e a ha, ih as has]

theorem parseAddrs_succeeds (es : List Value) (hs : es.all addrShapeOK = true)
    (hp : ∀ p ∈ es.filterMap addrPort, 1 ≤ p ∧ p ≤ 55535) :
    ∃ ss, parseAddrs es = .ok ss := by
  induction es with
  | nil => exact ⟨[], rfl⟩
  | cons e es ih =>
    rw [List.all_cons, Bool.and_eq_true] at hs
    obtain ⟨p, hpe⟩ := addrShapeOK_port e hs.1
    have hp1 : 1 ≤ p ∧ p ≤ 55535 := hp p (by simp [List.filterMap_cons, hpe])
    have hc : ¬ (p ≤ 0 ∨ wrapInt64 (p + 10000) > 65535) := by
      rw [wrapInt64_small _ (by norm_num; omega) (by norm_num; omega)]
      omega
    obtain ⟨s, hse⟩ := ((parseAddr_cases e).2 hs.1 p hpe).2 hc
    obtain ⟨ss, hss⟩ := ih hs.2 (fun q hq => hp q (by
      simp only [List.filterMap_cons, hpe]
      exact List.mem_cons_of_mem _ hq))
    exact ⟨s :: ss, by simp [parseAddrs, hse, hss, Res.bind]⟩

theorem entryShapeOK_inv (e : Value) (h : entryShapeOK e = true) :
    ∃ f t a rest, e = .array (.int f :: .int t :: a :: rest) ∧
      (0 ≤ f ∧ f < 16384) ∧ (0 ≤ t ∧ t < 16384) ∧ f ≤ t ∧
      (a :: rest).all addrShapeOK = true := by
  cases e with
  | array xs =>
    rcases xs with _ | ⟨f, _ | ⟨t, _ | ⟨a, rest⟩⟩⟩
    · simp [entryShapeOK] at h
    · cases f <;> simp [entryShapeOK] at h
    · cases f <;> cases t <;> simp [entryShapeOK] at h
    · cases f <;> cases t <;> try (simp [entryShapeOK] at h; done)
      rename_i f t
      simp only [entryShapeOK, Bool.and_eq_true, decide_eq_true_eq] at h
      exact ⟨f, t, a, rest, rfl, h.1.1.1, h.1.1.2, h.1.2, h.2⟩
  | _ => simp [entryShapeOK] at h

theorem parseRange_int (srt : SliceSorter) (f t : Int) (a : Value) (rest : List Value) :
    parseRange srt (.array (.int f :: .int t :: a :: rest)) =
      if f < 0 ∨ f ≥ NumSlots then
        .error (errUnexpected "format mismatch: res[%d][0]=%+v")
      else if t < 0 ∨ t ≥ NumSlots then
        .error (errUnexpected "format mismatch: res[%d][1]=%+v")
      else if f > t then
        .error (errUnexpected "range wrong: res[%d]=%+v (%+v)")
      else
        (parseAddrs (a :: rest)).bind fun addrs =>
        (sortTail srt addrs).bind fun sorted =>
        .ok { From := f, To := t, Addrs := sorted } := by
  simp only [parseRange]

theorem parseRange_total (srt : SliceSorter) (e : Value) :
    (∃ r, parseRange srt e = .ok r) ∨ (parseRange srt e).FailsUnexpected := by
  unfold parseRange
  split
  · rename_i f t a rest
    split
    · split
      · exact Or.inr (failsUnexpected_errUnexpected _)
      · split
        · split
          · exact Or.inr (failsUnexpected_errUnexpected _)
          · split
            · exact Or.inr (failsUnexpected_errUnexpected _)
            · rcases parseAddrs_total (a :: rest) with ⟨ss, hss⟩ | hf
              · have hne := parseAddrs_cons_ne_nil a rest ss hss
                cases ss with
                | nil => exact absurd rfl hne
                | cons s0 ss =>
                  rw [hss]
                  exact Or.inl ⟨_, rfl⟩
              · exact Or.inr (Res.bind_failsUnexpected _ _ hf)
        · exact Or.inr (failsUnexpected_errUnexpected _)
    · exact Or.inr (failsUnexpected_errUnexpected _)
  · exact Or.inr (failsUnexpected_errUnexpected _)

theorem parseRange_ok_shape (srt : SliceSorter) (e : Value) (r : SlotsRange)
    (h : parseRange srt e = .ok r) : entryShapeOK e = true := by
  unfold parseRange at h
  split at h
  · rename_i f t a rest
    split at h
    · rename_i i64
      split at h
      · cases h
      · rename_i hi
        split at h
        · rename_i j64
          split at h
          · cases h
          · rename_i hj
            split at h
            · cases h
            · rename_i hij
              obtain ⟨addrs, haddrs, _⟩ := (Res.bind_eq_ok _ _ _).mp h
              have hs := parseAddrs_ok_shape _ _ haddrs
              simp only [NumSlots] at hi hj
              simp only [entryShapeOK, Bool.and_eq_true, decide_eq_true_eq]
              exact ⟨⟨⟨⟨by omega, by omega⟩, ⟨by omega, by omega⟩⟩, by omega⟩, hs⟩
        · cases h
    · cases h
  · cases h

theorem parseRange_succeeds (srt : SliceSorter) (e : Value) (hs : entryShapeOK e = true)
    (hp : ∀ p ∈ (match e with
                 | .array (_ :: _ :: addrs) => addrs.filterMap addrPort
                 | _ => []), 1 ≤ p ∧ p ≤ 55535) :
    ∃ r, parseRange srt e = .ok r := by
  obtain ⟨f, t, a, rest, he, hf, ht, hft, hall⟩ := entryShapeOK_inv e hs
  subst he
  obtain ⟨ss, hss⟩ := parseAddrs_succeeds (a :: rest) hall hp
  have hne := parseAddrs_cons_ne_nil a rest ss hss
  rw [parseRange_int]
  have h1 : ¬ (f < 0 ∨ f ≥ NumSlots) := by simp only [NumSlots]; omega
  have h2 : ¬ (t < 0 ∨ t ≥ NumSlots) := by simp only [NumSlots]; omega
  have h3 : ¬ f > t := by omega
  rw [if_neg h1, if_neg h2, if_neg h3]
  cases ss with
  | nil => exact absurd rfl hne
  | cons s0 ss =>
    refine ⟨{ From := f, To := t, Addrs := s0 :: srt.sort strLess ss }, ?_⟩
    simp [hss, Res.bind, sortTail]

theorem parseRanges_total (srt : SliceSorter) (es : List Value) :
    (∃ rs, parseRanges srt es = .ok rs) ∨ (parseRanges srt es).FailsUnexpected := by
  induction es with
  | nil => exact Or.inl ⟨[], rfl⟩
  | cons e es ih =>
    unfold parseRanges
    rcases parseRange_total srt e with ⟨r, hr⟩ | hf
    · rw [hr]
      rcases ih with ⟨rs, hrs⟩ | hf
      · exact Or.inl ⟨r :: rs, by simp [Res.bind, hrs]⟩
      · exact Or.inr (by simpa [Res.bind] using Res.bind_failsUnexpected _ _ hf)
    · exact Or.inr (Res.bind_failsUnexpected _ _ hf)

theorem parseRanges_ok_shape (srt : SliceSorter) (es : List Value) (rs : List SlotsRange)
    (h : parseRanges srt es = .ok rs) : es.all entryShapeOK = true := by
  induction es generalizing rs with
  | nil => rfl
  | cons e es ih =>
    unfold parseRanges at h
    obtain ⟨r, hr, hb⟩ := (Res.bind_eq_ok _ _ _).mp h
    obtain ⟨rs1, hrs, _⟩ := (Res.bind_eq_ok _ _ _).mp hb
    simp [List.all_cons, parseRange_ok_shape srt e r hr, ih rs1 hrs]

theorem parseRanges_succeeds (srt : SliceSorter) (es : List Value)
    (hs : es.all entryShapeOK = true)
    (hp : ∀ p ∈ replyPorts (.array es), 1 ≤ p ∧ p ≤ 55535) :
    ∃ rs, parseRanges srt es = .ok rs := by
  induction es with
  | nil => exact ⟨[], rfl⟩
  | cons e es ih =>
    rw [List.all_cons, Bool.and_eq_true] at hs
    simp only [replyPorts, List.flatMap_cons, List.mem_append] at hp
    obtain ⟨r, hr⟩ := parseRange_succeeds srt e hs.1 (fun p hpm => hp p (Or.inl hpm))
    obtain ⟨rs, hrs⟩ := ih hs.2 (fun p hpm => hp p (Or.inr hpm))
    exact ⟨r :: rs, by simp [parseRanges, hr, hrs, Res.bind]⟩

/-- C4: for a reply that is no error value, `ParseSlotsInfo` fails with a
Response/Unexpected error (and so returns no list) whenever the reply is not an
array of well shaped entries, and it succeeds when the reply is well shaped and
every port is in `1..55535`. -/
theorem parseSlotsInfo_shape (srt : SliceSorter) (res : Value) (hres : AsError res = none) :
    (replyShapeOK res = false → (ParseSlotsInfo srt res).FailsUnexpected) ∧
    (replyShapeOK res = true → (∀ p ∈ replyPorts res, 1 ≤ p ∧ p ≤ 55535) →
      ∃ out, ParseSlotsInfo srt res = .ok out) := by
  unfold ParseSlotsInfo
  rw [hres]
  cases res with
  | array es =>
    constructor
    · intro hs
      rcases parseRanges_total srt es with ⟨rs, hrs⟩ | hf
      · have := parseRanges_ok_shape srt es rs hrs
        simp only [replyShapeOK] at hs
        rw [this] at hs
        cases hs
      · exact Res.bind_failsUnexpected _ _ hf
    · intro hs hp
      obtain ⟨rs, hrs⟩ := parseRanges_succeeds srt es hs hp
      exact ⟨srt.sort rangeLess rs, by simp [hrs, Res.bind]⟩
  | err e => simp [AsError] at hres
  | _ =>
    exact ⟨fun _ => failsUnexpected_errUnexpected _, fun hs => by simp [replyShapeOK] at hs⟩

/-- On a reply that is no error value `ParseSlotsInfo` returns a list or a
Response/Unexpected error; no index or slice expression is out of range. -/
theorem parseSlotsInfo_total (srt : SliceSorter) (res : Value) (hres : AsError res = none) :
    (∃ out, ParseSlotsInfo srt res = .ok out) ∨ (ParseSlotsInfo srt res).FailsUnexpected := by
  unfold ParseSlotsInfo
  rw [hres]
  cases res with
  | array es =>
    rcases parseRanges_total srt es with ⟨rs, hrs⟩ | hf
    · exact Or.inl ⟨srt.sort rangeLess rs, by simp [hrs, Res.bind]⟩
    · exact Or.inr (Res.bind_failsUnexpected _ _ hf)
  | err e => simp [AsError] at hres
  | _ => exact Or.inr (failsUnexpected_errUnexpected _)

theorem parseSlotsInfo_sample :
    ParseSlotsInfo insertionSorter sampleSlotsReply = .ok sampleSlotsRanges := by
  decide

theorem parseSlotsInfo_sorted_perm_witness :
    ParseSlotsInfo insertionSorter sampleSlotsReply = .ok sampleSlotsRanges ∧
    ∃ entries ranges, sampleSlotsReply = .array entries ∧ entryRanges entries = some ranges ∧
      sampleSlotsRanges.length = entries.length ∧
      sampleSlotsRanges.Pairwise (fun a b => a.From ≤ b.From) ∧
      sampleSlotsRanges.Perm ranges :=
  ⟨parseSlotsInfo_sample,
    parseSlotsInfo_sorted_perm insertionSorter sampleSlotsReply sampleSlotsRanges
      parseSlotsInfo_sample⟩

theorem parseSlotsInfo_range_invariant_witness :
    ParseSlotsInfo insertionSorter sampleSlotsReply = .ok sampleSlotsRanges ∧
    ∀ r ∈ sampleSlotsRanges, (0 ≤ r.From ∧ r.From ≤ r.To ∧ r.To < 16384) ∧ r.Addrs ≠ [] :=
  ⟨parseSlotsInfo_sample,
    parseSlotsInfo_range_invariant insertionSorter sampleSlotsReply sampleSlotsRanges
      parseSlotsInfo_sample⟩

theorem parseSlotsInfo_shape_witness :
    (AsError (.array [.array [.int 5, .int 4, .array [.bytes ['h'], .int 7000]]]) = none ∧
      (ParseSlotsInfo insertionSorter
        (.array [.array [.int 5, .int 4, .array [.bytes ['h'], .int 7000]]])).FailsUnexpected) ∧
    (AsError sampleSlotsReply = none ∧
      ∃ out, ParseSlotsInfo insertionSorter sampleSlotsReply = .ok out) :=
  ⟨⟨rfl, (parseSlotsInfo_shape insertionSorter
      (.array [.array [.int 5, .int 4, .array [.bytes ['h'], .int 7000]]]) rfl).1 (by decide)⟩,
   ⟨rfl, (parseSlotsInfo_shape insertionSorter sampleSlotsReply rfl).2 (by decide)
      (by decide)⟩⟩

/-- C5, the code at the failing input: a port equal to the largest `int64`
passes the check `port+10000 > 65535` because the sum wraps around, and the
reply is accepted. -/
theorem parseSlotsInfo_accepts_max_port :
    wrapInt64 (9223372036854775807 + 10000) = -9223372036854765809 ∧
    ParseSlotsInfo insertionSorter maxPortReply =
      .ok [{ From := 0, To := 0,
             Addrs := [['h', ':', '9', '2', '2', '3', '3', '7', '2', '0', '3', '6', '8', '5',
               '4', '7', '7', '5', '8', '0', '7']] }] := by
  constructor
  · decide
  · decide

/-! ## Splitting and searching strings -/

theorem splitOn_ne_nil (sep : Char) (s : Str) : splitOn sep s ≠ [] := by
  induction s with
  | nil => simp [splitOn]
  | cons c cs ih =>
    unfold splitOn
    split
    · simp
    · split <;> simp

theorem splitOn_of_not_mem (sep : Char) (s : Str) (h : sep ∉ s) : splitOn sep s = [s] := by
  induction s with
  | nil => rfl
  | cons c cs ih =>
    rw [List.mem_cons, not_or] at h
    have hc : ¬ c = sep := fun e => h.1 e.symm
    unfold splitOn
    rw [if_neg hc, ih h.2]

theorem splitOn_cons_ne (sep c : Char) (cs : Str) (hc : ¬ c = sep) :
    splitOn sep (c :: cs) = (c :: (splitOn sep cs).headD []) :: (splitOn sep cs).tail := by
  rw [splitOn, if_neg hc]
  cases splitOn sep cs <;> rfl

theorem splitOn_append_sep (sep : Char) (a b : Str) (h : sep ∉ a) :
    splitOn sep (a ++ sep :: b) = a :: splitOn sep b := by
  induction a with
  | nil => simp [splitOn]
  | cons c cs ih =>
    rw [List.mem_cons, not_or] at h
    have hc : ¬ c = sep := fun e => h.1 e.symm
    rw [List.cons_append, splitOn_cons_ne sep c _ hc, ih h.2]
    rfl

theorem splitOn_joinWith (sep : Char) (l : List Str) (hne : l ≠ [])
    (h : ∀ f ∈ l, sep ∉ f) : splitOn sep (joinWith sep l) = l := by
  induction l with
  | nil => exact absurd rfl hne
  | cons a rest ih =>
    cases rest with
    | nil => exact splitOn_of_not_mem sep a (h a (List.mem_cons_self _ _))
    | cons b rest =>
      unfold joinWith
      rw [splitOn_append_sep sep a _ (h a (List.mem_cons_self _ _)),
        ih (by simp) (fun f hf => h f (List.mem_cons_of_mem _ hf))]

theorem joinWith_not_mem (sep c : Char) (l : List Str) (hc : c ≠ sep)
    (h : ∀ f ∈ l, c ∉ f) : c ∉ joinWith sep l := by
  induction l with
  | nil => simp [joinWith]
  | cons a rest ih =>
    cases rest with
    | nil => exact h a (List.mem_cons_self _ _)
    | cons b rest =>
      unfold joinWith
      rw [List.mem_append, List.mem_cons]
      rintro (h1 | h1 | h1)
      · exact h a (List.mem_cons_self _ _) h1
      · exact hc h1
      · exact ih (fun f hf => h f (List.mem_cons_of_mem _ hf)) h1

theorem joinWith_length (sep : Char) (l : List Str) :
    (joinWith sep l).length + 1 = (l.map (fun s => s.length + 1)).sum + (if l = [] then 1 else 0) := by
  induction l with
  | nil => simp [joinWith]
  | cons a rest ih =>
    cases rest with
    | nil => simp [joinWith]
    | cons b rest =>
      unfold joinWith
      simp only [List.length_append, List.length_cons, List.map_cons, List.sum_cons] at ih ⊢
      simp at ih ⊢
      omega

theorem indexOf_of_not_mem (sub s : Str) (c : Char) (hc : c ∈ sub) (hs : c ∉ s) :
    indexOf sub s = none := by
  induction s with
  | nil =>
    cases sub with
    | nil => cases hc
    | cons x xs => simp [indexOf]
  | cons y ys ih =>
    rw [List.mem_cons, not_or] at hs
    unfold indexOf
    have hp : sub.isPrefixOf (y :: ys) = false := by
      cases hpre : sub.isPrefixOf (y :: ys) with
      | false => rfl
      | true =>
        exfalso
        have := (List.isPrefixOf_iff_prefix.mp hpre).subset hc
        rcases List.mem_cons.mp this with h | h
        · exact hs.1 h
        · exact hs.2 h
    rw [hp]
    simp [ih hs.2]

theorem indexOf_cons (sub : Str) (y : Char) (ys : Str) :
    indexOf sub (y :: ys) =
      if sub.isPrefixOf (y :: ys) then some 0 else (indexOf sub ys).map (· + 1) := rfl

theorem indexOf_append (c : Char) (sub pre post : Str) (hpre : c ∉ pre) :
    indexOf (c :: sub) (pre ++ (c :: (sub ++ post))) = some pre.length := by
  induction pre with
  | nil =>
    have : (c :: sub).isPrefixOf (c :: (sub ++ post)) = true :=
      List.isPrefixOf_iff_prefix.mpr ⟨post, rfl⟩
    rw [List.nil_append, indexOf_cons, this]
    simp
  | cons y ys ih =>
    rw [List.mem_cons, not_or] at hpre
    have hy : ¬ c = y := hpre.1
    have hp : (c :: sub).isPrefixOf (y :: (ys ++ (c :: (sub ++ post)))) = false := by
      simp [List.isPrefixOf, hy]
    rw [List.cons_append, indexOf_cons, hp, ih hpre.2]
    simp

/-! ## Decimal numbers -/

theorem isDecimal_iff (s : Str) :
    isDecimal s = true ↔ s ≠ [] ∧ ∀ c ∈ s, 48 ≤ c.toNat ∧ c.toNat ≤ 57 := by
  cases s <;> simp [isDecimal, isDigit, List.all_eq_true]

theorem foldl_dec_ge (s : Str) (n : Nat) :
    n ≤ s.foldl (fun n c => n * 10 + (c.toNat - 48)) n := by
  induction s generalizing n with
  | nil => simp
  | cons c cs ih =>
    rw [List.foldl_cons]
    have := ih (n * 10 + (c.toNat - 48))
    omega

theorem parseUintLoop_digits (s : Str) (n : Nat)
    (hd : ∀ c ∈ s, 48 ≤ c.toNat ∧ c.toNat ≤ 57)
    (hv : s.foldl (fun n c => n * 10 + (c.toNat - 48)) n < 2 ^ 64) :
    parseUintLoop s n = .ok (s.foldl (fun n c => n * 10 + (c.toNat - 48)) n) := by
  induction s generalizing n with
  | nil => rfl
  | cons c cs ih =>
    rw [List.foldl_cons] at hv ⊢
    have hc := hd c (List.mem_cons_self _ _)
    have hge := foldl_dec_ge cs (n * 10 + (c.toNat - 48))
    have hlt : n * 10 + (c.toNat - 48) < 2 ^ 64 := lt_of_le_of_lt hge hv
    unfold parseUintLoop
    rw [if_pos hc]
    have h1 : ¬ n ≥ (2 ^ 64 - 1) / 10 + 1 := by
      norm_num at hlt ⊢
      omega
    have h2 : ¬ n * 10 + (c.toNat - 48) > 2 ^ 64 - 1 := by
      norm_num at hlt ⊢
      omega
    rw [if_neg h1, if_neg h2]
    exact ih _ (fun x hx => hd x (List.mem_cons_of_mem _ hx)) hv

/-- Reading a decimal number below `2^63` with `Atoi` gives its value without error. -/
theorem Atoi_decimal (s : Str) (hs : isDecimal s = true) (hv : decVal s < 2 ^ 63) :
    Atoi s = ((decVal s : Int), none) := by
  obtain ⟨hne, hd⟩ := (isDecimal_iff s).mp hs
  cases s with
  | nil => exact absurd rfl hne
  | cons c cs =>
    have hc := hd c (List.mem_cons_self _ _)
    have hplus : ¬ c = '+' := by
      intro h; rw [h] at hc; revert hc; decide
    have hminus : ¬ c = '-' := by
      intro h; rw [h] at hc; revert hc; decide
    have hloop := parseUintLoop_digits (c :: cs) 0 hd
      (lt_of_lt_of_le hv (by norm_num))
    have hv2 : ¬ decVal (c :: cs) ≥ 2 ^ 63 := by omega
    simp only [Atoi, ParseUint, hplus, hminus, or_self, if_false, hloop, decide_False,
      Bool.not_false, true_and, false_and, Bool.false_eq_true]
    simp only [decVal] at hv2 ⊢
    rw [if_neg hv2]

theorem toUint16_small (n : Nat) (h : n < 16384) : toUint16 (n : Int) = n := by
  unfold toUint16
  omega

theorem isSlotText_iff (s : Str) :
    isSlotText s = true ↔ isDecimal s = true ∧ decVal s < 16384 := by
  simp [isSlotText]

/-- What `Atoi` and `uint16` give on a decimal slot number. -/
theorem Atoi_slot (s : Str) (hs : isSlotText s = true) :
    Atoi s = ((decVal s : Int), none) ∧ toUint16 (decVal s : Int) = decVal s := by
  obtain ⟨h1, h2⟩ := (isSlotText_iff s).mp hs
  exact ⟨Atoi_decimal s h1 (lt_of_lt_of_le h2 (by norm_num)), toUint16_small _ h2⟩

theorem digit_not_mem (s : Str) (hd : ∀ c ∈ s, 48 ≤ c.toNat ∧ c.toNat ≤ 57) (x : Char)
    (hx : x.toNat < 48 ∨ 57 < x.toNat) : x ∉ s := by
  intro hm
  have := hd x hm
  omega

theorem alnum_not_mem (s : Str) (hd : s.all isAlnum = true) (x : Char)
    (hx : isAlnum x = false) : x ∉ s := by
  intro hm
  have := List.all_eq_true.mp hd x hm
  rw [hx] at this
  cases this

/-! ## Tokens -/

theorem slice_mid (pre mid post : Str) (lo hi : Nat) (hlo : lo = pre.length)
    (hhi : hi = pre.length + mid.length) :
    slice (pre ++ mid ++ post) lo hi = some mid := by
  subst hlo hhi
  unfold slice
  rw [if_pos (by simp)]
  rw [List.append_assoc, List.take_append_eq_append_take]
  simp

theorem slotText_digits (s : Str) (hs : isSlotText s = true) :
    s ≠ [] ∧ ∀ c ∈ s, 48 ≤ c.toNat ∧ c.toNat ≤ 57 :=
  (isDecimal_iff s).mp ((isSlotText_iff s).mp hs).1

theorem parseToken_single (node : ClusterInstanceInfo) (n : Str) (hn : isSlotText n = true) :
    parseToken node (Tok.single n).text = .ok (Tok.apply node (.single n)) := by
  obtain ⟨hne, hd⟩ := slotText_digits n hn
  obtain ⟨hat, hu⟩ := Atoi_slot n hn
  cases n with
  | nil => exact absurd rfl hne
  | cons c cs =>
    have hc := hd c (List.mem_cons_self _ _)
    have hbr : ¬ c = '[' := by
      intro h; rw [h] at hc; revert hc; decide
    have hix : indexByte '-' (c :: cs) = none :=
      indexOf_of_not_mem _ _ '-' (List.mem_cons_self _ _)
        (digit_not_mem _ hd '-' (by decide))
    simp only [Tok.text, parseToken, if_neg hbr, hix, hat, hu, Tok.apply, Tok.slots,
      Tok.migration, Option.toList, List.append_nil]

theorem parseToken_range (node : ClusterInstanceInfo) (a b : Str)
    (ha : isSlotText a = true) (hb : isSlotText b = true) :
    parseToken node (Tok.range a b).text = .ok (Tok.apply node (.range a b)) := by
  obtain ⟨hne, hd⟩ := slotText_digits a ha
  obtain ⟨hata, hua⟩ := Atoi_slot a ha
  obtain ⟨hatb, hub⟩ := Atoi_slot b hb
  have hix : indexByte '-' (a ++ '-' :: b) = some a.length := by
    have := indexOf_append '-' [] a b (digit_not_mem _ hd '-' (by decide))
    simpa [indexByte] using this
  have htake : (a ++ '-' :: b).take a.length = a := by simp
  have hdrop : (a ++ '-' :: b).drop (a.length + 1) = b := by
    rw [show a ++ '-' :: b = (a ++ ['-']) ++ b by simp]
    exact List.drop_left' (by simp)
  cases a with
  | nil => exact absurd rfl hne
  | cons c cs =>
    have hc := hd c (List.mem_cons_self _ _)
    have hbr : ¬ c = '[' := by
      intro h; rw [h] at hc; revert hc; decide
    simp only [Tok.text, List.cons_append] at hix htake hdrop ⊢
    simp only [parseToken, if_neg hbr, hix, htake, hdrop, hata, hatb, hua, hub, Tok.apply,
      Tok.slots, Tok.migration, Option.toList, List.append_nil]

theorem parseMigration_marked (node : ClusterInstanceInfo) (n p : Str) (x : Char)
    (hx : x = '<' ∨ x = '>') (hn : isSlotText n = true) (hp : isPeer p = true) :
    parseMigration node ('[' :: n ++ '-' :: x :: '-' :: p ++ [']']) =
      .ok { node with
        Migrating := node.Migrating ++
          [{ Number := decVal n,
             Moving := if x = '<' then .ClusterSlotImporting else .ClusterSlotMigrating,
             Peer := p }] } := by
  obtain ⟨hne, hd⟩ := slotText_digits n hn
  obtain ⟨hat, hu⟩ := Atoi_slot n hn
  have hp2 : p.all isAlnum = true := by
    simp only [isPeer, Bool.and_eq_true] at hp
    exact hp.2
  have hpre : '-' ∉ '[' :: n := by
    rw [List.mem_cons, not_or]
    exact ⟨by decide, digit_not_mem _ hd '-' (by decide)⟩
  have hshape : '[' :: n ++ '-' :: x :: '-' :: p ++ [']']
      = ('[' :: n) ++ ('-' :: ([x, '-'] ++ (p ++ [']']))) := by simp
  have hix : indexOf ['-', x, '-'] ('[' :: n ++ '-' :: x :: '-' :: p ++ [']'])
      = some (n.length + 1) := by
    rw [hshape, indexOf_append '-' [x, '-'] ('[' :: n) (p ++ [']']) hpre]
    simp
  have hnum : slice ('[' :: n ++ '-' :: x :: '-' :: p ++ [']']) 1 (n.length + 1) = some n := by
    rw [show '[' :: n ++ '-' :: x :: '-' :: p ++ [']']
        = ['['] ++ n ++ ('-' :: x :: '-' :: p ++ [']']) by simp]
    exact slice_mid _ _ _ _ _ (by simp) (by simp; omega)
  have hpeer : slice ('[' :: n ++ '-' :: x :: '-' :: p ++ [']']) (n.length + 1 + 3)
      (('[' :: n ++ '-' :: x :: '-' :: p ++ [']']).length - 1) = some p := by
    rw [show '[' :: n ++ '-' :: x :: '-' :: p ++ [']']
        = ('[' :: n ++ ['-', x, '-']) ++ p ++ [']'] by simp]
    exact slice_mid _ _ _ _ _ (by simp) (by simp; omega)
  rcases hx with hx | hx
  · subst hx
    simp only [parseMigration, hix, hnum, hat, hpeer, hu, if_true]
  · subst hx
    have hnone : indexOf ['-', '<', '-'] ('[' :: n ++ '-' :: '>' :: '-' :: p ++ [']']) = none := by
      apply indexOf_of_not_mem _ _ '<' (by simp)
      have h1 := digit_not_mem _ hd '<' (by decide)
      have h2 := alnum_not_mem _ hp2 '<' (by decide)
      simp [h1, h2]
    have hne2 : ¬ '>' = '<' := by decide
    simp only [parseMigration, hnone, hix, hnum, hat, hpeer, hu, if_neg hne2]

theorem parseToken_importing (node : ClusterInstanceInfo) (n p : Str)
    (hn : isSlotText n = true) (hp : isPeer p = true) :
    parseToken node (Tok.importing n p).text = .ok (Tok.apply node (.importing n p)) := by
  have := parseMigration_marked node n p '<' (Or.inl rfl) hn hp
  simp only [Tok.text, parseToken, if_true, List.cons_append, Tok.apply, Tok.slots,
    Tok.migration, Option.toList, List.append_nil] at this ⊢
  exact this

theorem parseToken_migrating (node : ClusterInstanceInfo) (n p : Str)
    (hn : isSlotText n = true) (hp : isPeer p = true) :
    parseToken node (Tok.migrating n p).text = .ok (Tok.apply node (.migrating n p)) := by
  have := parseMigration_marked node n p '>' (Or.inr rfl) hn hp
  have hne2 : ¬ '>' = '<' := by decide
  simp only [Tok.text, parseToken, if_true, List.cons_append, Tok.apply, Tok.slots,
    Tok.migration, Option.toList, List.append_nil, if_neg hne2] at this ⊢
  exact this

/-- Reading the text of a well-formed token appends its range or migration. -/
theorem parseToken_text (node : ClusterInstanceInfo) (t : Tok) (ht : t.wellFormed = true) :
    parseToken node t.text = .ok (Tok.apply node t) := by
  cases t with
  | single n => exact parseToken_single node n ht
  | range a b =>
    simp only [Tok.wellFormed, Bool.and_eq_true] at ht
    exact parseToken_range node a b ht.1 ht.2
  | importing n p =>
    simp only [Tok.wellFormed, Bool.and_eq_true] at ht
    exact parseToken_importing node n p ht.1 ht.2
  | migrating n p =>
    simp only [Tok.wellFormed, Bool.and_eq_true] at ht
    exact parseToken_migrating node n p ht.1 ht.2

theorem parseTokens_texts (toks : List Tok) (node : ClusterInstanceInfo)
    (h : toks.all Tok.wellFormed = true) :
    parseTokens (toks.map Tok.text) node =
      .ok { node with
        Slots := node.Slots ++ toks.filterMap Tok.slots,
        Migrating := node.Migrating ++ toks.filterMap Tok.migration } := by
  induction toks generalizing node with
  | nil => simp [parseTokens]
  | cons t rest ih =>
    rw [List.all_cons, Bool.and_eq_true] at h
    rw [List.map_cons, parseTokens, parseToken_text node t h.1]
    simp only [Res.bind]
    rw [ih _ h.2]
    cases t <;> simp [Tok.apply, Tok.slots, Tok.migration, List.filterMap_cons]

/-! ## Record lines -/

theorem field_not_mem (s : Str) (h : isField s = true) :
    ' ' ∉ s ∧ '\n' ∉ s := by
  simp only [isField, List.all_eq_true, Bool.and_eq_true, bne_iff_ne, ne_eq] at h
  exact ⟨fun hm => (h _ hm).1 rfl, fun hm => (h _ hm).2 rfl⟩

theorem host_not_mem (s : Str) (h : isHost s = true) :
    ' ' ∉ s ∧ '\n' ∉ s ∧ ':' ∉ s ∧ '@' ∉ s := by
  simp only [isHost, List.all_eq_true, Bool.and_eq_true, bne_iff_ne, ne_eq] at h
  exact ⟨fun hm => (h _ hm).1.1.1 rfl, fun hm => (h _ hm).1.1.2 rfl,
    fun hm => (h _ hm).1.2 rfl, fun hm => (h _ hm).2 rfl⟩

theorem decimal_not_mem (s : Str) (h : isDecimal s = true) (x : Char)
    (hx : x.toNat < 48 ∨ 57 < x.toNat) : x ∉ s :=
  digit_not_mem s ((isDecimal_iff s).mp h).2 x hx

theorem slotText_not_mem (s : Str) (h : isSlotText s = true) (x : Char)
    (hx : x.toNat < 48 ∨ 57 < x.toNat) : x ∉ s :=
  digit_not_mem s (slotText_digits s h).2 x hx

theorem peer_not_mem (s : Str) (h : isPeer s = true) (x : Char)
    (hx : isAlnum x = false) : x ∉ s := by
  simp only [isPeer, Bool.and_eq_true] at h
  exact alnum_not_mem s h.2 x hx

/-- A well-formed token holds neither a space nor a newline. -/
theorem tok_text_not_mem (t : Tok) (ht : t.wellFormed = true) (x : Char)
    (hx : x = ' ' ∨ x = '\n') : x ∉ t.text := by
  have hd : x.toNat < 48 ∨ 57 < x.toNat := by rcases hx with h | h <;> subst h <;> decide
  have ha : isAlnum x = false := by rcases hx with h | h <;> subst h <;> decide
  have h1 : ¬ x = '-' := by rcases hx with h | h <;> subst h <;> decide
  have h2 : ¬ x = '[' := by rcases hx with h | h <;> subst h <;> decide
  have h3 : ¬ x = ']' := by rcases hx with h | h <;> subst h <;> decide
  have h4 : ¬ x = '<' := by rcases hx with h | h <;> subst h <;> decide
  have h5 : ¬ x = '>' := by rcases hx with h | h <;> subst h <;> decide
  cases t with
  | single n => exact slotText_not_mem n ht x hd
  | range a b =>
    simp only [Tok.wellFormed, Bool.and_eq_true] at ht
    simp [Tok.text, slotText_not_mem a ht.1 x hd, slotText_not_mem b ht.2 x hd, h1]
  | importing n p =>
    simp only [Tok.wellFormed, Bool.and_eq_true] at ht
    simp [Tok.text, slotText_not_mem n ht.1 x hd, peer_not_mem p ht.2 x ha, h1, h2, h3, h4]
  | migrating n p =>
    simp only [Tok.wellFormed, Bool.and_eq_true] at ht
    simp [Tok.text, slotText_not_mem n ht.1 x hd, peer_not_mem p ht.2 x ha, h1, h2, h3, h5]

theorem Record.wellFormed_iff (r : Record) :
    r.wellFormed = true ↔
      isField r.id = true ∧ isHost r.ip = true ∧ isDecimal r.port = true ∧
      isDecimal r.busport = true ∧ isField r.flags = true ∧ isField r.replicaOf = true ∧
      isField r.f5 = true ∧ isField r.f6 = true ∧ isField r.f7 = true ∧
      isField r.f8 = true ∧ r.toks.all Tok.wellFormed = true := by
  simp only [Record.wellFormed, Bool.and_eq_true]
  tauto

/-- No field of a well-formed record holds a space or a newline. -/
theorem Record.fields_not_mem (r : Record) (h : r.wellFormed = true) (x : Char)
    (hx : x = ' ' ∨ x = '\n') : ∀ f ∈ r.fields, x ∉ f := by
  obtain ⟨h1, h2, h3, h4, h5, h6, h7, h8, h9, h10, h11⟩ := (Record.wellFormed_iff r).mp h
  have hd : x.toNat < 48 ∨ 57 < x.toNat := by rcases hx with h | h <;> subst h <;> decide
  have hc1 : ¬ x = ':' := by rcases hx with h | h <;> subst h <;> decide
  have hc2 : ¬ x = '@' := by rcases hx with h | h <;> subst h <;> decide
  have hf : ∀ s, isField s = true → x ∉ s := by
    intro s hs
    rcases hx with h | h <;> subst h
    · exact (field_not_mem s hs).1
    · exact (field_not_mem s hs).2
  have hh : x ∉ r.ip := by
    rcases hx with h | h <;> subst h
    · exact (host_not_mem _ h2).1
    · exact (host_not_mem _ h2).2.1
  intro f hfm
  simp only [Record.fields, List.mem_cons, List.mem_map] at hfm
  rcases hfm with e | e | e | e | e | e | e | e | ⟨t, ht, e⟩
  · subst e; exact hf _ h1
  · subst e
    simp [hh, decimal_not_mem _ h3 x hd, decimal_not_mem _ h4 x hd, hc1, hc2]
  · subst e; exact hf _ h5
  · subst e; exact hf _ h6
  · subst e; exact hf _ h7
  · subst e; exact hf _ h8
  · subst e; exact hf _ h9
  · subst e; exact hf _ h10
  · subst e; exact tok_text_not_mem t (List.all_eq_true.mp h11 t ht) x hx

theorem Record.split_line (r : Record) (h : r.wellFormed = true) :
    splitOn ' ' r.line = r.fields :=
  splitOn_joinWith ' ' r.fields (by simp [Record.fields])
    (Record.fields_not_mem r h ' ' (Or.inl rfl))

theorem Record.line_no_newline (r : Record) (h : r.wellFormed = true) : '\n' ∉ r.line :=
  joinWith_not_mem ' ' '\n' r.fields (by decide) (Record.fields_not_mem r h '\n' (Or.inr rfl))

/-- The loop body reads a well-formed record line as the node of the record. -/
theorem parseLine_record (r : Record) (h : r.wellFormed = true) :
    parseLine r.line = .ok r.node := by
  obtain ⟨h1, h2, h3, h4, h5, h6, h7, h8, h9, h10, h11⟩ := (Record.wellFormed_iff r).mp h
  have hipp : splitOn '@' (r.ip ++ ':' :: r.port ++ '@' :: r.busport)
      = [r.ip ++ ':' :: r.port, r.busport] := by
    rw [show r.ip ++ ':' :: r.port ++ '@' :: r.busport
        = (r.ip ++ ':' :: r.port) ++ '@' :: r.busport by simp]
    rw [splitOn_append_sep, splitOn_of_not_mem]
    · exact decimal_not_mem _ h4 '@' (by decide)
    · simp [(host_not_mem _ h2).2.2.2, decimal_not_mem _ h3 '@' (by decide)]
  have haddr : splitOn ':' (r.ip ++ ':' :: r.port) = [r.ip, r.port] := by
    rw [splitOn_append_sep, splitOn_of_not_mem]
    · exact decimal_not_mem _ h3 ':' (by decide)
    · exact (host_not_mem _ h2).2.2.1
  unfold parseLine
  rw [Record.split_line r h]
  simp only [Record.fields, List.getElem?_cons_succ, List.getElem?_cons_zero, hipp, haddr,
    List.headD_cons, List.getD_cons_succ, List.getD_cons_zero, List.length_cons,
    List.length_nil, List.drop_succ_cons, List.drop_zero]
  have htok := parseTokens_texts r.toks
  by_cases hs : contains r.flags ['s', 'l', 'a', 'v', 'e'] = true
  · simp [hs, Res.bind, htok _ h11, Record.node]
  · simp [hs, Res.bind, htok _ h11, Record.node]

/-- A reply that is one well-formed record line of length at least 16 parses
to the node of the record. -/
theorem parseClusterInfo_record (srt : SliceSorter) (r : Record) (h : r.wellFormed = true)
    (hlen : 16 ≤ r.line.length) :
    ParseClusterInfo srt (.bytes r.line) = .ok [r.node] := by
  have hsplit : splitOn '\n' r.line = [r.line] :=
    splitOn_of_not_mem _ _ (Record.line_no_newline r h)
  have hlt : ¬ r.line.length < 16 := by omega
  simp only [ParseClusterInfo, AsError, hsplit, parseLines, if_neg hlt, parseLine_record r h,
    Res.bind]
  rw [List.perm_singleton.mp (srt.perm nodeLess [r.node])]

/-! ## Record extraction and migration tokens -/

/-- C6, as stated, fails: the port `9223372036854775808` is a decimal number,
`Atoi` answers it with a range error, which is dropped, and the value
`9223372036854775807`, so `Port` is not the number written in the line. -/
theorem parseClusterInfo_port_counterexample :
    bigPortRecord.wellFormed = true ∧ bigPortRecord.toks.all Tok.isSlots = true ∧
    16 ≤ bigPortRecord.line.length ∧
    decVal bigPortRecord.port = 9223372036854775808 ∧
    ParseClusterInfo insertionSorter (.bytes bigPortRecord.line) =
      .ok [{ Uuid := "07c...".toList, IpPort := "127.0.0.1:9223372036854775808".toList,
             Ip := "127.0.0.1".toList, Port := 9223372036854775807, Port2 := 17000,
             Fail := false, MySelf := false, SlaveOf := [], Slots := [(0, 5460)],
             Migrating := [] }] ∧
    ParseClusterInfo insertionSorter (.bytes bigPortRecord.line) ≠
      .ok [{ Uuid := bigPortRecord.id, IpPort := bigPortRecord.ip ++ ':' :: bigPortRecord.port,
             Ip := bigPortRecord.ip, Port := (decVal bigPortRecord.port : Int),
             Port2 := (decVal bigPortRecord.busport : Int),
             Fail := contains bigPortRecord.flags ['f', 'a', 'i', 'l'], MySelf := false,
             SlaveOf := if contains bigPortRecord.flags ['s', 'l', 'a', 'v', 'e']
               then bigPortRecord.replicaOf else [],
             Slots := bigPortRecord.toks.filterMap Tok.slots,
             Migrating := [] }] := by
  refine ⟨by decide, by decide, by decide, by decide, by decide, by decide⟩

/-- C6 (amended): a reply that is one record line of at least 16 characters,
with single-space-separated fields `id ip:port@busport flags replicaOf f5 f6 f7
f8 tok...`, `ip` without `:` and `@`, `port` and `busport` decimal numbers
below `2^63`, every token a decimal slot below 16384 or a range `a-b` of such,
parses to exactly one node with the fields of the record: `Port` and `Port2`
the numbers written, `Fail` whether the flags contain `fail`, `SlaveOf` the
fourth field if the flags contain `slave` and empty otherwise, no migrations,
and `Slots` the tokens in order. -/
theorem parseClusterInfo_record_extraction (srt : SliceSorter) (r : Record)
    (hwf : r.wellFormed = true) (hslots : r.toks.all Tok.isSlots = true)
    (hport : decVal r.port < 2 ^ 63) (hbus : decVal r.busport < 2 ^ 63)
    (hlen : 16 ≤ r.line.length) :
    ParseClusterInfo srt (.bytes r.line) =
      .ok [{ Uuid := r.id, IpPort := r.ip ++ ':' :: r.port, Ip := r.ip,
             Port := (decVal r.port : Int), Port2 := (decVal r.busport : Int),
             Fail := contains r.flags ['f', 'a', 'i', 'l'], MySelf := false,
             SlaveOf := if contains r.flags ['s', 'l', 'a', 'v', 'e'] then r.replicaOf else [],
             Slots := r.toks.filterMap Tok.slots,
             Migrating := [] }] := by
  obtain ⟨_, _, h3, h4, _⟩ := (Record.wellFormed_iff r).mp hwf
  have hmig : r.toks.filterMap Tok.migration = [] := by
    rw [List.filterMap_eq_nil_iff]
    intro t ht
    have := List.all_eq_true.mp hslots t ht
    cases t <;> simp [Tok.isSlots] at this <;> rfl
  rw [parseClusterInfo_record srt r hwf hlen]
  simp only [Record.node, Atoi_decimal r.port h3 hport, Atoi_decimal r.busport h4 hbus, hmig]

theorem parseClusterInfo_record_extraction_witness :
    (sampleRecord.wellFormed = true ∧ sampleRecord.toks.all Tok.isSlots = true ∧
      decVal sampleRecord.port < 2 ^ 63 ∧ decVal sampleRecord.busport < 2 ^ 63 ∧
      16 ≤ sampleRecord.line.length) ∧
    ParseClusterInfo insertionSorter (.bytes sampleRecord.line) =
      .ok [{ Uuid := sampleRecord.id, IpPort := sampleRecord.ip ++ ':' :: sampleRecord.port,
             Ip := sampleRecord.ip,
             Port := (decVal sampleRecord.port : Int),
             Port2 := (decVal sampleRecord.busport : Int),
             Fail := contains sampleRecord.flags ['f', 'a', 'i', 'l'], MySelf := false,
             SlaveOf := if contains sampleRecord.flags ['s', 'l', 'a', 'v', 'e']
               then sampleRecord.replicaOf else [],
             Slots := sampleRecord.toks.filterMap Tok.slots,
             Migrating := [] }] :=
  ⟨⟨by decide, by decide, by decide, by decide, by decide⟩,
   parseClusterInfo_record_extraction insertionSorter sampleRecord (by decide) (by decide)
     (by decide) (by decide) (by decide)⟩

/-- The line of a record ending in a migration marker has at least 16 bytes. -/
theorem Record.line_length_of_marker (r : Record) (t : Tok) (hport : r.port ≠ [])
    (hbus : r.busport ≠ []) (ht : 7 ≤ t.text.length) :
    16 ≤ ({ r with toks := r.toks ++ [t] } : Record).line.length := by
  have h := joinWith_length ' ' ({ r with toks := r.toks ++ [t] } : Record).fields
  have hp : 1 ≤ r.port.length := by
    cases hr : r.port with
    | nil => exact absurd hr hport
    | cons _ _ => simp
  have hb : 1 ≤ r.busport.length := by
    cases hr : r.busport with
    | nil => exact absurd hr hbus
    | cons _ _ => simp
  simp only [Record.line, Record.fields, List.map_cons, List.map_append, List.map_map,
    List.sum_cons, List.sum_append, List.map_nil, List.sum_nil, List.length_append,
    List.length_cons, if_false, reduceCtorEq] at h ⊢
  omega

/-- C7: in a well-formed record whose trailing token is `[n-<-p]`, with `n`
a decimal slot below 16384 and `p` a non-empty alphanumeric peer id, the node
gets the migration `{n, ClusterSlotImporting, p}` after those of the earlier
tokens; with `[n->-p]` it gets `{n, ClusterSlotMigrating, p}`.  In both cases
`Slots` holds the ranges of the earlier tokens only. -/
theorem parseClusterInfo_migration_token (srt : SliceSorter) (r : Record) (n p : Str)
    (hwf : r.wellFormed = true) (hn : isSlotText n = true) (hp : isPeer p = true) :
    ParseClusterInfo srt (.bytes ({ r with toks := r.toks ++ [.importing n p] } : Record).line) =
      .ok [{ r.node with
        Slots := r.toks.filterMap Tok.slots,
        Migrating := r.toks.filterMap Tok.migration ++
          [{ Number := decVal n, Moving := .ClusterSlotImporting, Peer := p }] }] ∧
    ParseClusterInfo srt (.bytes ({ r with toks := r.toks ++ [.migrating n p] } : Record).line) =
      .ok [{ r.node with
        Slots := r.toks.filterMap Tok.slots,
        Migrating := r.toks.filterMap Tok.migration ++
          [{ Number := decVal n, Moving := .ClusterSlotMigrating, Peer := p }] }] := by
  obtain ⟨h1, h2, h3, h4, h5, h6, h7, h8, h9, h10, h11⟩ := (Record.wellFormed_iff r).mp hwf
  have hport : r.port ≠ [] := ((isDecimal_iff _).mp h3).1
  have hbus : r.busport ≠ [] := ((isDecimal_iff _).mp h4).1
  have hnlen : 1 ≤ n.length := by
    have := (slotText_digits n hn).1
    cases n with
    | nil => exact absurd rfl this
    | cons _ _ => simp
  have hplen : 1 ≤ p.length := by
    cases p with
    | nil => simp [isPeer] at hp
    | cons _ _ => simp
  have hwf2 : ∀ t : Tok, t.wellFormed = true →
      ({ r with toks := r.toks ++ [t] } : Record).wellFormed = true := by
    intro t ht
    rw [Record.wellFormed_iff]
    refine ⟨h1, h2, h3, h4, h5, h6, h7, h8, h9, h10, ?_⟩
    simp only [List.all_append, Bool.and_eq_true, List.all_cons, List.all_nil, Bool.and_true]
    exact ⟨h11, ht⟩
  constructor
  · have ht : (Tok.importing n p).wellFormed = true := by simp [Tok.wellFormed, hn, hp]
    rw [parseClusterInfo_record srt _ (hwf2 _ ht)
      (Record.line_length_of_marker r _ hport hbus (by simp [Tok.text]; omega))]
    simp [Record.node, List.filterMap_append, Tok.slots, Tok.migration]
  · have ht : (Tok.migrating n p).wellFormed = true := by simp [Tok.wellFormed, hn, hp]
    rw [parseClusterInfo_record srt _ (hwf2 _ ht)
      (Record.line_length_of_marker r _ hport hbus (by simp [Tok.text]; omega))]
    simp [Record.node, List.filterMap_append, Tok.slots, Tok.migration]

theorem parseClusterInfo_migration_token_witness :
    (sampleRecord.wellFormed = true ∧ isSlotText "100".toList = true ∧
      isPeer "abc123".toList = true) ∧
    (ParseClusterInfo insertionSorter
      (.bytes ({ sampleRecord with
        toks := sampleRecord.toks ++ [.importing "100".toList "abc123".toList] } :
          Record).line) =
      .ok [{ sampleRecord.node with
        Slots := sampleRecord.toks.filterMap Tok.slots,
        Migrating := sampleRecord.toks.filterMap Tok.migration ++
          [{ Number := decVal "100".toList, Moving := .ClusterSlotImporting,
             Peer := "abc123".toList }] }] ∧
    ParseClusterInfo insertionSorter
      (.bytes ({ sampleRecord with
        toks := sampleRecord.toks ++ [.migrating "100".toList "abc123".toList] } :
          Record).line) =
      .ok [{ sampleRecord.node with
        Slots := sampleRecord.toks.filterMap Tok.slots,
        Migrating := sampleRecord.toks.filterMap Tok.migration ++
          [{ Number := decVal "100".toList, Moving := .ClusterSlotMigrating,
             Peer := "abc123".toList }] }]) :=
  ⟨⟨by decide, by decide, by decide⟩,
   parseClusterInfo_migration_token insertionSorter sampleRecord "100".toList "abc123".toList
     (by decide) (by decide) (by decide)⟩

/-! ## Masters first -/

theorem strLess_irrefl (a : Str) : strLess a a = false := by
  cases h : strLess a a with
  | false => rfl
  | true => rw [strLess_asymm a a h] at h; cases h

theorem nodeLess_eq (a b : ClusterInstanceInfo) :
    nodeLess a b = (a.IsMaster && !b.IsMaster) := by
  unfold nodeLess
  rw [strLess_irrefl]
  cases a.IsMaster <;> cases b.IsMaster <;> rfl

theorem nodeLess_asymm (a b : ClusterInstanceInfo) (h : nodeLess a b = true) :
    nodeLess b a = false := by
  rw [nodeLess_eq] at h ⊢
  revert h
  cases a.IsMaster <;> cases b.IsMaster <;> simp

theorem nodeLess_trans_compl (a b c : ClusterInstanceInfo) (h1 : nodeLess b a = false)
    (h2 : nodeLess c b = false) : nodeLess c a = false := by
  rw [nodeLess_eq] at h1 h2 ⊢
  revert h1 h2
  cases a.IsMaster <;> cases b.IsMaster <;> cases c.IsMaster <;> simp

/-- The loop over the lines yields one node per line of length at least 16. -/
theorem parseLines_ok (lines : List Str) (nodes : List ClusterInstanceInfo)
    (h : parseLines lines = .ok nodes) :
    List.Forall₂ (fun line node => parseLine line = .ok node)
      (lines.filter (fun l => decide (16 ≤ l.length))) nodes := by
  induction lines generalizing nodes with
  | nil =>
    simp only [parseLines, Res.ok.injEq] at h
    subst h
    exact List.Forall₂.nil
  | cons line rest ih =>
    unfold parseLines at h
    by_cases hl : line.length < 16
    · rw [if_pos hl] at h
      have : ¬ 16 ≤ line.length := by omega
      simp only [List.filter_cons, this, decide_False, Bool.false_eq_true, if_false]
      exact ih nodes h
    · rw [if_neg hl] at h
      obtain ⟨node, hnode, hb⟩ := (Res.bind_eq_ok _ _ _).mp h
      obtain ⟨ns, hns, hc⟩ := (Res.bind_eq_ok _ _ _).mp hb
      simp only [Res.ok.injEq] at hc
      subst hc
      have : 16 ≤ line.length := by omega
      simp only [List.filter_cons, this, decide_True, if_true]
      exact List.Forall₂.cons hnode (ih ns hns)

/-- Shape of a successful `ParseClusterInfo`. -/
theorem parseClusterInfo_ok (srt : SliceSorter) (res : Value)
    (infos : List ClusterInstanceInfo) (h : ParseClusterInfo srt res = .ok infos) :
    ∃ text nodes, res = .bytes text ∧ parseLines (splitOn '\n' text) = .ok nodes ∧
      infos = srt.sort nodeLess nodes := by
  unfold ParseClusterInfo at h
  split at h
  · cases h
  · split at h
    · rename_i infob _
      obtain ⟨nodes, hn, hb⟩ := (Res.bind_eq_ok _ _ _).mp h
      simp only [Res.ok.injEq] at hb
      exact ⟨infob, nodes, rfl, hn, hb.symm⟩
    · cases h

/-- C8: on success the list returned by `ParseClusterInfo` is a permutation
of the nodes parsed from the lines of length at least 16, one node per such
line and none for shorter lines, and no replica stands before a master. -/
theorem parseClusterInfo_masters_first (srt : SliceSorter) (res : Value)
    (infos : List ClusterInstanceInfo) (h : ParseClusterInfo srt res = .ok infos) :
    ∃ text nodes, res = .bytes text ∧
      List.Forall₂ (fun line node => parseLine line = .ok node)
        ((splitOn '\n' text).filter (fun l => decide (16 ≤ l.length))) nodes ∧
      infos.Perm nodes ∧
      infos.Pairwise (fun a b => ¬ (a.SlaveOf ≠ [] ∧ b.SlaveOf = [])) := by
  obtain ⟨text, nodes, hres, hn, hinfos⟩ := parseClusterInfo_ok srt res infos h
  refine ⟨text, nodes, hres, parseLines_ok _ _ hn, ?_, ?_⟩
  · rw [hinfos]; exact srt.perm nodeLess nodes
  · rw [hinfos]
    refine (srt.sorted nodeLess nodes nodeLess_asymm nodeLess_trans_compl).imp ?_
    intro a b hab
    rw [nodeLess_eq] at hab
    simp only [ClusterInstanceInfo.IsMaster, Bool.and_eq_false_iff, decide_eq_false_iff_not,
      Bool.not_eq_false', decide_eq_true_eq] at hab
    tauto

theorem parseClusterInfo_sample :
    ParseClusterInfo insertionSorter (.bytes sampleNodesText) =
      .ok [sampleRecord.node, sampleReplicaRecord.node] := by
  decide

theorem parseClusterInfo_masters_first_witness :
    ParseClusterInfo insertionSorter (.bytes sampleNodesText) =
      .ok [sampleRecord.node, sampleReplicaRecord.node] ∧
    ∃ text nodes, Value.bytes sampleNodesText = .bytes text ∧
      List.Forall₂ (fun line node => parseLine line = .ok node)
        ((splitOn '\n' text).filter (fun l => decide (16 ≤ l.length))) nodes ∧
      [sampleRecord.node, sampleReplicaRecord.node].Perm nodes ∧
      [sampleRecord.node, sampleReplicaRecord.node].Pairwise
        (fun a b => ¬ (a.SlaveOf ≠ [] ∧ b.SlaveOf = [])) :=
  ⟨parseClusterInfo_sample,
   parseClusterInfo_masters_first insertionSorter (.bytes sampleNodesText)
     [sampleRecord.node, sampleReplicaRecord.node] parseClusterInfo_sample⟩

/-! ## Shard scanner -/

theorem runNext_forward (isLast : Str → Bool) (conn : Str → Bool) (n : Nat) (s s1 : Scanner)
    (a : Str) (it : Option Str) (c : Str) (cs : List Str)
    (h : s.Next isLast conn = .ok (s1, .forward a it)) :
    runNext isLast conn (n + 1) s (c :: cs)
      = .forward a it :: runNext isLast conn n (s1.deliver c) cs := by
  simp only [runNext, h]

theorem runNext_resolve (isLast : Str → Bool) (conn : Str → Bool) (n : Nat) (s s1 : Scanner)
    (e : Option RedisError) (replies : List Str)
    (h : s.Next isLast conn = .ok (s1, .resolve e)) :
    runNext isLast conn (n + 1) s replies = .resolve e :: runNext isLast conn n s1 replies := by
  simp only [runNext, h]

/-- A call with a cursor that is not terminal forwards to the first pending address. -/
theorem next_forward (isLast : Str → Bool) (conn : Str → Bool) (it : Option Str)
    (a : Str) (as : List Str) (hit : ∀ c, it = some c → isLast c = false)
    (hconn : conn a = true) :
    Scanner.Next isLast conn { Err := none, Iter := it, addrs := a :: as }
      = .ok ({ Err := none, Iter := it, addrs := a :: as }, .forward a it) := by
  have hl : Scanner.IterLast isLast { Err := none, Iter := it, addrs := a :: as } = false := by
    cases it with
    | none => rfl
    | some c => exact hit c rfl
  simp [Scanner.Next, hl, Res.bind, hconn]

/-- A call with a terminal cursor drops the first pending address and goes
on with the nil cursor. -/
theorem next_drop (isLast : Str → Bool) (conn : Str → Bool) (t : Str) (x : Str)
    (as : List Str) (ht : isLast t = true) :
    Scanner.Next isLast conn { Err := none, Iter := some t, addrs := x :: as }
      = Scanner.Next isLast conn { Err := none, Iter := none, addrs := as } := by
  simp [Scanner.Next, Scanner.IterLast, ht, Res.bind]

theorem next_done (isLast : Str → Bool) (conn : Str → Bool) :
    Scanner.Next isLast conn { Err := none, Iter := none, addrs := [] }
      = .ok ({ Err := none, Iter := none, addrs := [] }, .resolve none) := by
  simp [Scanner.Next, Scanner.IterLast, Res.bind]

/-- After the last shard every call resolves with the nil error. -/
theorem runNext_done (isLast : Str → Bool) (conn : Str → Bool) (n : Nat) :
    runNext isLast conn n { Err := none, Iter := none, addrs := [] } []
      = List.replicate n (.resolve none) := by
  induction n with
  | zero => rfl
  | succ n ih =>
    rw [runNext_resolve isLast conn n _ _ none [] (next_done isLast conn), ih]
    rfl

/-- The calls made while one shard is scanned. -/
theorem runNext_block (isLast : Str → Bool) (conn : Str → Bool) (a : Str) (as : List Str)
    (last : Str) (hconn : conn a = true) (cs : List Str) :
    ∀ (it : Option Str) (m : Nat) (rest : List Str),
      (∀ c, it = some c → isLast c = false) → (∀ c ∈ cs, isLast c = false) →
      runNext isLast conn (cs.length + 1 + m) { Err := none, Iter := it, addrs := a :: as }
          (cs ++ last :: rest)
        = (.forward a it :: cs.map (fun c => .forward a (some c)))
          ++ runNext isLast conn m { Err := none, Iter := some last, addrs := a :: as } rest := by
  induction cs with
  | nil =>
    intro it m rest hit _
    rw [show ([] : List Str).length + 1 + m = m + 1 by simp; omega]
    rw [List.nil_append, runNext_forward isLast conn m _ _ a it last rest
      (next_forward isLast conn it a as hit hconn)]
    rfl
  | cons c cs ih =>
    intro it m rest hit hcs
    rw [show (c :: cs).length + 1 + m = (cs.length + 1 + m) + 1 by simp; omega]
    rw [List.cons_append, runNext_forward isLast conn _ _ _ a it c _
      (next_forward isLast conn it a as hit hconn)]
    have hc : isLast c = false := hcs c (List.mem_cons_self _ _)
    have := ih (some c) m rest (fun x hx => by cases hx; exact hc)
      (fun x hx => hcs x (List.mem_cons_of_mem _ hx))
    simp only [Scanner.deliver]
    rw [this]
    rfl

/-- The run of a scanner over the pending shards `blocks`, started with the
nil cursor or with the terminal cursor of the shard scanned before. -/
theorem runNext_blocks (isLast : Str → Bool) (conn : Str → Bool) (extra : Nat)
    (blocks : List ScanBlock) :
    (∀ b ∈ blocks, conn b.addr = true) →
    (∀ b ∈ blocks, (∀ c ∈ b.cursors, isLast c = false) ∧ isLast b.last = true) →
    ∀ (s : Scanner),
      (s = { Err := none, Iter := none, addrs := blocks.map (·.addr) } ∨
        ∃ t x, isLast t = true ∧
          s = { Err := none, Iter := some t, addrs := x :: blocks.map (·.addr) }) →
      runNext isLast conn ((blocks.flatMap ScanBlock.replies).length + extra) s
          (blocks.flatMap ScanBlock.replies)
        = blocks.flatMap ScanBlock.effects ++ List.replicate extra (.resolve none) := by
  induction blocks with
  | nil =>
    intro _ _ s hs
    simp only [List.flatMap_nil, List.length_nil, Nat.zero_add, List.nil_append]
    simp only [List.map_nil] at hs
    rcases hs with hs | ⟨t, x, ht, hs⟩
    · subst hs
      exact runNext_done isLast conn extra
    · subst hs
      cases extra with
      | zero => rfl
      | succ n =>
        have hn : Scanner.Next isLast conn { Err := none, Iter := some t, addrs := [x] }
            = .ok ({ Err := none, Iter := none, addrs := [] }, .resolve none) := by
          rw [next_drop isLast conn t x [] ht, next_done]
        rw [runNext_resolve isLast conn n _ _ none [] hn, runNext_done]
        rfl
  | cons b rest ih =>
    intro hconn hcur s hs
    have hb := hcur b (List.mem_cons_self _ _)
    have hcb := hconn b (List.mem_cons_self _ _)
    have ihr := ih (fun x hx => hconn x (List.mem_cons_of_mem _ hx))
      (fun x hx => hcur x (List.mem_cons_of_mem _ hx))
      { Err := none, Iter := some b.last, addrs := b.addr :: rest.map (·.addr) }
      (Or.inr ⟨b.last, b.addr, hb.2, rfl⟩)
    have hlen : ((b :: rest).flatMap ScanBlock.replies).length + extra
        = b.cursors.length + 1 + ((rest.flatMap ScanBlock.replies).length + extra) := by
      simp [List.flatMap_cons, ScanBlock.replies]
      omega
    have hrep : (b :: rest).flatMap ScanBlock.replies
        = b.cursors ++ b.last :: rest.flatMap ScanBlock.replies := by
      simp [List.flatMap_cons, ScanBlock.replies]
    have hmain := runNext_block isLast conn b.addr (rest.map (·.addr)) b.last hcb b.cursors none
      ((rest.flatMap ScanBlock.replies).length + extra) (rest.flatMap ScanBlock.replies)
      (fun c hc => by cases hc) hb.1
    rw [ihr] at hmain
    have hgoal : (b :: rest).flatMap ScanBlock.effects ++ List.replicate extra (.resolve none)
        = (Effect.forward b.addr none :: b.cursors.map (fun c => Effect.forward b.addr (some c)))
          ++ (rest.flatMap ScanBlock.effects ++ List.replicate extra (.resolve none)) := by
      simp [List.flatMap_cons, ScanBlock.effects]
    rw [hlen, hrep, hgoal, ← hmain]
    rcases hs with hs | ⟨t, x, ht, hs⟩
    · subst hs
      rfl
    · subst hs
      -- the first call drops the address scanned before
      have hfirst : ∀ (n : Nat) (replies : List Str),
          runNext isLast conn (n + 1)
              { Err := none, Iter := some t, addrs := x :: (b :: rest).map (·.addr) } replies
            = runNext isLast conn (n + 1)
              { Err := none, Iter := none, addrs := (b :: rest).map (·.addr) } replies := by
        intro n replies
        have h1 := next_drop isLast conn t x ((b :: rest).map (·.addr)) ht
        have h2 := next_forward isLast conn none b.addr (rest.map (·.addr))
          (fun c hc => by cases hc) hcb
        simp only [List.map_cons] at h1 h2 ⊢
        rw [h2] at h1
        simp only [runNext, h1, h2]
      rw [show b.cursors.length + 1 + ((rest.flatMap ScanBlock.replies).length + extra)
          = (b.cursors.length + ((rest.flatMap ScanBlock.replies).length + extra)) + 1 by omega]
      exact hfirst _ _

/-- C10: a scanner built for a keyspace-wide scan over the pending addresses
of `blocks` (at least one), every address connected, every reply without
error, the cursors of each shard not terminal until its last one: successive
`Next` calls forward to the first address once per reply of the first shard,
then to the second, and so on in order, each address in one contiguous block;
every call after the last shard's terminal cursor resolves with the nil error
and forwards nothing. -/
theorem scanner_visits_shards_in_order (isLast : Str → Bool) (conn : Str → Bool)
    (shardAddrs : Str → List Str) (opts : ScanOpts) (blocks : List ScanBlock) (extra : Nat)
    (hcmd : opts.Cmd = [] ∨ opts.Cmd = ['S', 'C', 'A', 'N']) (hne : blocks ≠ [])
    (hconn : ∀ b ∈ blocks, conn b.addr = true)
    (hcur : ∀ b ∈ blocks, (∀ c ∈ b.cursors, isLast c = false) ∧ isLast b.last = true) :
    ∃ s, newScanner (blocks.map (·.addr)) shardAddrs opts = .ok s ∧
      runNext isLast conn ((blocks.flatMap ScanBlock.replies).length + extra) s
          (blocks.flatMap ScanBlock.replies)
        = blocks.flatMap ScanBlock.effects ++ List.replicate extra (.resolve none) := by
  refine ⟨{ Err := none, Iter := none, addrs := blocks.map (·.addr) }, ?_, ?_⟩
  · have hlen : ¬ (blocks.map (·.addr)).length = 0 := by
      cases blocks with
      | nil => exact absurd rfl hne
      | cons b bs => simp
    simp only [newScanner, if_pos hcmd, if_neg hlen]
  · exact runNext_blocks isLast conn extra blocks hconn hcur _ (Or.inl rfl)

theorem scanner_visits_shards_in_order_witness :
    ∃ s, newScanner (sampleBlocks.map (·.addr)) (fun _ => []) { Cmd := [], Key := [] } = .ok s ∧
      runNext isZeroCursor (fun _ => true) ((sampleBlocks.flatMap ScanBlock.replies).length + 2) s
          (sampleBlocks.flatMap ScanBlock.replies)
        = sampleBlocks.flatMap ScanBlock.effects ++ List.replicate 2 (.resolve none) :=
  scanner_visits_shards_in_order isZeroCursor (fun _ => true) (fun _ => [])
    { Cmd := [], Key := [] } sampleBlocks 2 (Or.inl rfl) (by decide) (by decide) (by decide)

/-- The run of the sample scan, spelled out. -/
theorem scanner_sample_run :
    runNext isZeroCursor (fun _ => true) 5
        { Err := none, Iter := none, addrs := [['A'], ['B']] } [['5'], ['0'], ['0']]
      = [.forward ['A'] none, .forward ['A'] (some ['5']), .forward ['B'] none,
         .resolve none, .resolve none] := by
  decide

/-! ## Round trip from text to routing table -/

theorem digitChar_toNat : ∀ d, d < 10 → (Nat.digitChar d).toNat = 48 + d := by
  decide

/-- The digits produced for `n` are a decimal number writing `n`. -/
theorem toDigitsCore_spec (fuel : Nat) : ∀ (n : Nat) (acc : List Char), n < fuel →
    ∃ ds, Nat.toDigitsCore 10 fuel n acc = ds ++ acc ∧ ds ≠ [] ∧
      (∀ c ∈ ds, 48 ≤ c.toNat ∧ c.toNat ≤ 57) ∧
      ds.foldl (fun n c => n * 10 + (c.toNat - 48)) 0 = n := by
  induction fuel with
  | zero => intro n acc h; omega
  | succ fuel ih =>
    intro n acc hn
    have hd := digitChar_toNat (n % 10) (Nat.mod_lt _ (by norm_num))
    unfold Nat.toDigitsCore
    by_cases h0 : n / 10 = 0
    · simp only [h0, if_true]
      refine ⟨[Nat.digitChar (n % 10)], rfl, by simp, ?_, ?_⟩
      · intro c hc
        rw [List.mem_singleton] at hc
        subst hc
        omega
      · simp only [List.foldl_cons, List.foldl_nil, hd]
        omega
    · simp only [h0, if_false]
      obtain ⟨ds, h1, _, h3, h4⟩ := ih (n / 10) (Nat.digitChar (n % 10) :: acc) (by omega)
      refine ⟨ds ++ [Nat.digitChar (n % 10)], by simp [h1], by simp, ?_, ?_⟩
      · intro c hc
        rcases List.mem_append.mp hc with hc | hc
        · exact h3 c hc
        · rw [List.mem_singleton] at hc
          subst hc
          omega
      · rw [List.foldl_append, h4]
        simp only [List.foldl_cons, List.foldl_nil, hd]
        omega

theorem toDigits_decimal (n : Nat) :
    isDecimal (Nat.toDigits 10 n) = true ∧ decVal (Nat.toDigits 10 n) = n := by
  obtain ⟨ds, h1, h2, h3, h4⟩ := toDigitsCore_spec (n + 1) n [] (by omega)
  rw [List.append_nil] at h1
  unfold Nat.toDigits
  rw [h1]
  exact ⟨(isDecimal_iff ds).mpr ⟨h2, h3⟩, h4⟩

theorem toDigits_slotText (n : Nat) (h : n < 16384) : isSlotText (Nat.toDigits 10 n) = true := by
  rw [isSlotText_iff]
  obtain ⟨h1, h2⟩ := toDigits_decimal n
  exact ⟨h1, by rw [h2]; exact h⟩

theorem rangeTok_spec (p : Nat × Nat) (h1 : p.1 ≤ p.2) (h2 : p.2 < 16384) :
    (rangeTok p).wellFormed = true ∧ (rangeTok p).slots = some p ∧
    (rangeTok p).migration = none := by
  unfold rangeTok
  by_cases he : p.1 = p.2
  · rw [if_pos he]
    refine ⟨toDigits_slotText _ (by omega), ?_, rfl⟩
    simp only [Tok.slots, (toDigits_decimal p.1).2]
    exact congrArg some (Prod.ext rfl he)
  · rw [if_neg he]
    refine ⟨?_, ?_, rfl⟩
    · simp [Tok.wellFormed, toDigits_slotText p.1 (by omega), toDigits_slotText p.2 h2]
    · simp only [Tok.slots, (toDigits_decimal p.1).2, (toDigits_decimal p.2).2]

theorem rangeToks_spec (ranges : List (Nat × Nat))
    (h : ranges.all (fun p => decide (p.1 ≤ p.2) && decide (p.2 < 16384)) = true) :
    (ranges.map rangeTok).all Tok.wellFormed = true ∧
    (ranges.map rangeTok).filterMap Tok.slots = ranges ∧
    (ranges.map rangeTok).filterMap Tok.migration = [] := by
  induction ranges with
  | nil => simp
  | cons p rest ih =>
    simp only [List.all_cons, Bool.and_eq_true, decide_eq_true_eq] at h
    obtain ⟨g1, g2, g3⟩ := rangeTok_spec p h.1.1 h.1.2
    obtain ⟨i1, i2, i3⟩ := ih (by simpa using h.2)
    refine ⟨?_, ?_, ?_⟩
    · simp only [List.map_cons, List.all_cons, g1, i1, Bool.and_self]
    · simp only [List.map_cons, List.filterMap_cons, g2, i2]
    · simp only [List.map_cons, List.filterMap_cons, g3, i3]

theorem isId_iff (s : Str) : isId s = true ↔ s ≠ [] ∧ isField s = true := by
  cases s <;> simp [isId]

/-- The record of a well-formed node is a well-formed record. -/
theorem NodeSpec.record_wellFormed (n : NodeSpec) (h : n.wellFormed = true) :
    n.record.wellFormed = true := by
  cases n with
  | master id ip port busport ranges =>
    simp only [NodeSpec.wellFormed, Bool.and_eq_true] at h
    rw [Record.wellFormed_iff]
    have c1 : isField "master".toList = true := by decide
    have c2 : isField "-".toList = true := by decide
    have c3 : isField "0".toList = true := by decide
    have c4 : isField "1".toList = true := by decide
    have c5 : isField "connected".toList = true := by decide
    exact ⟨((isId_iff _).mp h.1.1).2, h.1.2, (toDigits_decimal _).1, (toDigits_decimal _).1,
      c1, c2, c3, c3, c4, c5, (rangeToks_spec ranges h.2).1⟩
  | replica id ip port busport masterId =>
    simp only [NodeSpec.wellFormed, Bool.and_eq_true] at h
    rw [Record.wellFormed_iff]
    have c1 : isField "slave".toList = true := by decide
    have c3 : isField "0".toList = true := by decide
    have c4 : isField "1".toList = true := by decide
    have c5 : isField "connected".toList = true := by decide
    exact ⟨((isId_iff _).mp h.1.1).2, h.1.2, (toDigits_decimal _).1, (toDigits_decimal _).1,
      c1, ((isId_iff _).mp h.2).2, c3, c3, c4, c5, rfl⟩

theorem Record.line_length_ge (r : Record) :
    r.flags.length + r.f8.length + 7 ≤ r.line.length := by
  have h := joinWith_length ' ' r.fields
  simp only [Record.line, Record.fields, List.map_cons, List.sum_cons, List.length_append,
    List.length_cons, if_false, reduceCtorEq] at h ⊢
  omega

theorem NodeSpec.line_length (n : NodeSpec) : 16 ≤ n.record.line.length := by
  have h := Record.line_length_ge n.record
  cases n with
  | master id ip port busport ranges =>
    have h1 : (NodeSpec.master id ip port busport ranges).record.flags.length = 6 := rfl
    have h2 : (NodeSpec.master id ip port busport ranges).record.f8.length = 9 := rfl
    omega
  | replica id ip port busport masterId =>
    have h1 : (NodeSpec.replica id ip port busport masterId).record.flags.length = 5 := rfl
    have h2 : (NodeSpec.replica id ip port busport masterId).record.f8.length = 9 := rfl
    omega

/-- The loop over the lines of a cluster text yields the nodes of the records. -/
theorem parseLines_records (nodes : List NodeSpec) (h : ∀ n ∈ nodes, n.wellFormed = true) :
    parseLines (nodes.map (fun n => n.record.line)) = .ok (nodes.map (fun n => n.record.node)) := by
  induction nodes with
  | nil => rfl
  | cons n rest ih =>
    have hlen : ¬ n.record.line.length < 16 := by
      have := NodeSpec.line_length n
      omega
    rw [List.map_cons, parseLines, if_neg hlen,
      parseLine_record _ (NodeSpec.record_wellFormed n (h n (List.mem_cons_self _ _))),
      ih (fun x hx => h x (List.mem_cons_of_mem _ hx))]
    rfl

/-- What `ParseClusterInfo` returns on the text of a cluster. -/
theorem parseClusterInfo_clusterText (srt : SliceSorter) (nodes : List NodeSpec)
    (h : ∀ n ∈ nodes, n.wellFormed = true) :
    ParseClusterInfo srt (.bytes (clusterText nodes))
      = .ok (srt.sort nodeLess (nodes.map (fun n => n.record.node))) := by
  have hlines : parseLines (splitOn '\n' (clusterText nodes))
      = .ok (nodes.map (fun n => n.record.node)) := by
    cases hn : nodes with
    | nil => simp [clusterText, joinWith, splitOn, parseLines]
    | cons n rest =>
      rw [← hn]
      unfold clusterText
      rw [splitOn_joinWith '\n' _ (by simp [hn])]
      · exact parseLines_records nodes h
      · intro f hf
        obtain ⟨x, hx, rfl⟩ := List.mem_map.mp hf
        exact Record.line_no_newline _ (NodeSpec.record_wellFormed x (h x hx))
  simp only [ParseClusterInfo, AsError, hlines, Res.bind]

theorem NodeSpec.node_slaveOf (n : NodeSpec) :
    n.record.node.SlaveOf =
      match n with
      | .master _ _ _ _ _ => []
      | .replica _ _ _ _ masterId => masterId := by
  cases n with
  | master id ip port busport ranges =>
    have : contains "master".toList ['s', 'l', 'a', 'v', 'e'] = false := by decide
    simp only [Record.node, NodeSpec.record, this, Bool.false_eq_true, if_false]
  | replica id ip port busport masterId =>
    have : contains "slave".toList ['s', 'l', 'a', 'v', 'e'] = true := by decide
    simp only [Record.node, NodeSpec.record, this, if_true]

theorem NodeSpec.node_isMaster (n : NodeSpec) (h : n.wellFormed = true) :
    n.record.node.IsMaster = n.isMaster := by
  unfold ClusterInstanceInfo.IsMaster
  rw [NodeSpec.node_slaveOf]
  cases n with
  | master id ip port busport ranges => simp [NodeSpec.isMaster]
  | replica id ip port busport masterId =>
    simp only [NodeSpec.wellFormed, Bool.and_eq_true] at h
    have := ((isId_iff _).mp h.2).1
    simp [NodeSpec.isMaster, this]

theorem NodeSpec.node_uuid (n : NodeSpec) : n.record.node.Uuid = n.id := by
  cases n <;> rfl

theorem NodeSpec.node_ipPort (n : NodeSpec) : n.record.node.IpPort = n.endpoint := by
  cases n <;> rfl

theorem NodeSpec.node_slots (n : NodeSpec) (h : n.wellFormed = true) :
    n.record.node.Slots = n.ranges := by
  cases n with
  | master id ip port busport ranges =>
    simp only [NodeSpec.wellFormed, Bool.and_eq_true] at h
    exact (rangeToks_spec ranges h.2).2.1
  | replica id ip port busport masterId => rfl

/-- With pairwise distinct master ids, the address list built for a master is
its endpoint followed by the endpoints of its replicas. -/
theorem collectAddrs_master_of_masters_nodup (iis : List ClusterInstanceInfo)
    (hnd : ((iis.filter (·.IsMaster)).map (·.Uuid)).Nodup) (m : ClusterInstanceInfo)
    (hm : m ∈ iis) (hmaster : m.IsMaster = true) :
    collectAddrs iis AddrMap.empty m.Uuid = addrsOfMaster iis m := by
  rw [collectAddrs_apply]
  have h1 : iis.filter (fun r => r.IsMaster && decide (r.Uuid = m.Uuid)) = [m] := by
    have := filter_uuid_of_nodup (iis.filter (·.IsMaster)) hnd m
      (List.mem_filter.mpr ⟨hm, hmaster⟩)
    rw [List.filter_filter] at this
    rw [← this]
    congr 1
    funext r
    exact Bool.and_comm _ _
  rw [h1]
  simp [AddrMap.empty, addrsOfMaster]

theorem mem_rangesOfMasters (addrs : ClusterInstanceInfo → List Str)
    (l : List ClusterInstanceInfo) (r : SlotsRange) (h : r ∈ rangesOfMasters addrs l) :
    ∃ m ∈ l, m.SlaveOf = [] ∧ ∃ s ∈ m.Slots,
      r = { From := (s.1 : Int), To := (s.2 : Int), Addrs := addrs m } := by
  induction l with
  | nil => simp [rangesOfMasters] at h
  | cons x xs ih =>
    unfold rangesOfMasters at h
    rcases List.mem_append.mp h with h1 | h1
    · by_cases hx : x.SlaveOf = []
      · rw [if_pos hx] at h1
        obtain ⟨s, hs, rfl⟩ := List.mem_map.mp h1
        exact ⟨x, List.mem_cons_self _ _, hx, s, hs, rfl⟩
      · rw [if_neg hx] at h1
        cases h1
    · obtain ⟨m, hm, rest⟩ := ih h1
      exact ⟨m, List.mem_cons_of_mem _ hm, rest⟩

/-- The slot pairs of the ranges of the masters do not depend on the addresses. -/
theorem rangesOfMasters_pairs (addrs : ClusterInstanceInfo → List Str)
    (l : List ClusterInstanceInfo) :
    (rangesOfMasters addrs l).map (fun r => (r.From, r.To)) =
      l.flatMap (fun m => if m.SlaveOf = [] then
        m.Slots.map (fun s => ((s.1 : Int), (s.2 : Int))) else []) := by
  induction l with
  | nil => rfl
  | cons x xs ih =>
    unfold rangesOfMasters
    rw [List.map_append, ih, List.flatMap_cons]
    by_cases hx : x.SlaveOf = []
    · simp [hx]
    · simp [hx]

theorem nodes_pairs (nodes : List NodeSpec) (h : ∀ n ∈ nodes, n.wellFormed = true) :
    (nodes.map (fun n => n.record.node)).flatMap (fun m => if m.SlaveOf = [] then
        m.Slots.map (fun s => ((s.1 : Int), (s.2 : Int))) else [])
      = (allRanges nodes).map (fun p => ((p.1 : Int), (p.2 : Int))) := by
  induction nodes with
  | nil => rfl
  | cons n rest ih =>
    have hn := h n (List.mem_cons_self _ _)
    rw [List.map_cons, List.flatMap_cons, ih (fun x hx => h x (List.mem_cons_of_mem _ hx))]
    unfold allRanges
    rw [List.flatMap_cons, List.map_append, NodeSpec.node_slots n hn]
    have hm := NodeSpec.node_isMaster n hn
    cases n with
    | master id ip port busport ranges =>
      simp [ClusterInstanceInfo.IsMaster, NodeSpec.isMaster] at hm
      simp [hm]
    | replica id ip port busport masterId =>
      simp [NodeSpec.ranges]

theorem nodes_masterIds (nodes : List NodeSpec) (h : ∀ n ∈ nodes, n.wellFormed = true) :
    ((nodes.map (fun n => n.record.node)).filter (·.IsMaster)).map (·.Uuid)
      = masterIds nodes := by
  induction nodes with
  | nil => rfl
  | cons n rest ih =>
    have hn := h n (List.mem_cons_self _ _)
    have ihr := ih (fun x hx => h x (List.mem_cons_of_mem _ hx))
    unfold masterIds at ihr ⊢
    rw [List.map_cons, List.filter_cons, List.filter_cons, NodeSpec.node_isMaster n hn]
    cases hm : n.isMaster with
    | true => simp only [if_true, List.map_cons, ihr, NodeSpec.node_uuid]
    | false => simp only [Bool.false_eq_true, if_false, ihr]

theorem nodes_replicaEndpoints (nodes : List NodeSpec) (h : ∀ n ∈ nodes, n.wellFormed = true)
    (mid : Str) :
    ((nodes.map (fun n => n.record.node)).filter
        (fun r => !r.IsMaster && decide (r.SlaveOf = mid))).map (·.IpPort)
      = replicaEndpoints nodes mid := by
  induction nodes with
  | nil => rfl
  | cons n rest ih =>
    have hn := h n (List.mem_cons_self _ _)
    have ihr := ih (fun x hx => h x (List.mem_cons_of_mem _ hx))
    unfold replicaEndpoints at ihr ⊢
    rw [List.map_cons, List.filter_cons, List.filter_cons, NodeSpec.node_isMaster n hn,
      NodeSpec.node_slaveOf]
    cases n with
    | master id ip port busport ranges =>
      simp only [NodeSpec.isMaster, NodeSpec.isReplicaOf, Bool.not_true, Bool.false_and,
        Bool.false_eq_true, if_false, ihr]
    | replica id ip port busport masterId =>
      simp only [NodeSpec.isMaster, NodeSpec.isReplicaOf, Bool.not_false, Bool.true_and]
      by_cases hm : masterId = mid
      · simp only [hm, decide_True, if_true, List.map_cons, ihr, NodeSpec.node_ipPort]
      · simp only [hm, decide_False, Bool.false_eq_true, if_false, ihr]

theorem allRanges_valid (nodes : List NodeSpec) (h : ∀ n ∈ nodes, n.wellFormed = true) :
    ∀ p ∈ allRanges nodes, p.1 ≤ p.2 := by
  intro p hp
  obtain ⟨n, hn, hpn⟩ := List.mem_flatMap.mp hp
  have hw := h n hn
  cases n with
  | master id ip port busport ranges =>
    simp only [NodeSpec.wellFormed, Bool.and_eq_true, List.all_eq_true, decide_eq_true_eq] at hw
    exact (hw.2 p hpn).1
  | replica id ip port busport masterId => cases hpn

/-- Valid, pairwise disjoint ranges start at pairwise different slots. -/
theorem disjoint_from_ne (l : List (Nat × Nat)) (hv : ∀ p ∈ l, p.1 ≤ p.2)
    (hd : l.Pairwise rangesDisjoint) :
    (l.map (fun p => ((p.1 : Int), (p.2 : Int)))).Pairwise (fun a b => a.1 ≠ b.1) := by
  rw [List.pairwise_map]
  induction l with
  | nil => exact List.Pairwise.nil
  | cons p rest ih =>
    rw [List.pairwise_cons] at hd ⊢
    refine ⟨?_, ih (fun q hq => hv q (List.mem_cons_of_mem _ hq)) hd.2⟩
    intro q hq
    have h1 := hv p (List.mem_cons_self _ _)
    have h2 := hv q (List.mem_cons_of_mem _ hq)
    have h3 := hd.1 q hq
    unfold rangesDisjoint at h3
    simp only [ne_eq, Nat.cast_inj]
    omega

/-- C9: for a cluster of well-formed nodes, masters with pairwise distinct ids
owning valid, pairwise disjoint slot ranges, and replicas naming masters, in
any order: rendering each node as one record line, joining the lines by
newlines, `ParseClusterInfo` and then `SlotsRanges` succeeds and returns
exactly the owned ranges, in strictly ascending `From` order, each with the
owning master's endpoint first followed by exactly the endpoints of the
replicas naming that master. -/
theorem cluster_text_round_trip (srt : SliceSorter) (nodes : List NodeSpec)
    (hwf : ∀ n ∈ nodes, n.wellFormed = true) (hids : (masterIds nodes).Nodup)
    (hdisj : (allRanges nodes).Pairwise rangesDisjoint) :
    ∃ infos, ParseClusterInfo srt (.bytes (clusterText nodes)) = .ok infos ∧
      ((SlotsRanges srt infos).map (fun r => (r.From, r.To))).Perm
        ((allRanges nodes).map (fun p => ((p.1 : Int), (p.2 : Int)))) ∧
      (SlotsRanges srt infos).Pairwise (fun a b => a.From < b.From) ∧
      ∀ r ∈ SlotsRanges srt infos, ∃ n ∈ nodes, n.isMaster = true ∧
        (∃ p ∈ n.ranges, r.From = (p.1 : Int) ∧ r.To = (p.2 : Int)) ∧
        ∃ reps, r.Addrs = n.endpoint :: reps ∧ reps.Perm (replicaEndpoints nodes n.id) := by
  refine ⟨srt.sort nodeLess (nodes.map (fun n => n.record.node)),
    parseClusterInfo_clusterText srt nodes hwf, ?_⟩
  generalize hinfos : srt.sort nodeLess (nodes.map (fun n => n.record.node)) = infos
  have hperm : infos.Perm (nodes.map (fun n => n.record.node)) := by
    rw [← hinfos]; exact srt.perm _ _
  have hnd : ((infos.filter (·.IsMaster)).map (·.Uuid)).Nodup := by
    rw [((hperm.filter _).map _).nodup_iff, nodes_masterIds nodes hwf]
    exact hids
  have hemit : emitRanges (collectAddrs infos AddrMap.empty) infos
      = rangesOfMasters (addrsOfMaster infos) infos :=
    emitRanges_eq _ _ infos
      (fun m hm hmaster => collectAddrs_master_of_masters_nodup infos hnd m hm hmaster)
  have hout : (SlotsRanges srt infos).Perm (rangesOfMasters (addrsOfMaster infos) infos) := by
    unfold SlotsRanges
    rw [hemit]
    exact srt.perm _ _
  have hpairs : ((SlotsRanges srt infos).map (fun r => (r.From, r.To))).Perm
      ((allRanges nodes).map (fun p => ((p.1 : Int), (p.2 : Int)))) := by
    refine (hout.map _).trans ?_
    rw [rangesOfMasters_pairs, ← nodes_pairs nodes hwf]
    exact List.Perm.flatMap_right _ hperm
  refine ⟨hpairs, ?_, ?_⟩
  · have hle := sort_rangeLess_ascending srt
      (emitRanges (collectAddrs infos AddrMap.empty) infos)
    have hne : (SlotsRanges srt infos).Pairwise (fun a b => a.From ≠ b.From) := by
      have h1 := disjoint_from_ne (allRanges nodes) (allRanges_valid nodes hwf) hdisj
      have h2 := (hpairs.pairwise_iff (R := fun (a b : Int × Int) => a.1 ≠ b.1)
        (fun hab => Ne.symm hab)).mpr h1
      rw [List.pairwise_map] at h2
      exact h2
    refine (List.Pairwise.and hle hne).imp ?_
    intro a b hab
    exact lt_of_le_of_ne hab.1 hab.2
  · intro r hr
    obtain ⟨m, hm, hslave, s, hs, hreq⟩ :=
      mem_rangesOfMasters _ _ r (hout.subset hr)
    obtain ⟨n, hn, hnm⟩ := List.mem_map.mp (hperm.subset hm)
    have hnw := hwf n hn
    have hmaster : n.isMaster = true := by
      rw [← NodeSpec.node_isMaster n hnw, hnm]
      simp [ClusterInstanceInfo.IsMaster, hslave]
    refine ⟨n, hn, hmaster, ⟨s, ?_, ?_, ?_⟩, ?_⟩
    · rw [← NodeSpec.node_slots n hnw, hnm]; exact hs
    · rw [hreq]
    · rw [hreq]
    · refine ⟨(infos.filter (fun x => !x.IsMaster && decide (x.SlaveOf = m.Uuid))).map (·.IpPort),
        ?_, ?_⟩
      · rw [hreq]
        simp only [addrsOfMaster, ← hnm, NodeSpec.node_ipPort]
      · rw [← nodes_replicaEndpoints nodes hwf n.id, ← NodeSpec.node_uuid n, hnm]
        exact (hperm.filter _).map _

theorem cluster_text_round_trip_witness :
    ((∀ n ∈ sampleCluster, n.wellFormed = true) ∧ (masterIds sampleCluster).Nodup ∧
      (allRanges sampleCluster).Pairwise rangesDisjoint) ∧
    ∃ infos, ParseClusterInfo insertionSorter (.bytes (clusterText sampleCluster)) = .ok infos ∧
      ((SlotsRanges insertionSorter infos).map (fun r => (r.From, r.To))).Perm
        ((allRanges sampleCluster).map (fun p => ((p.1 : Int), (p.2 : Int)))) ∧
      (SlotsRanges insertionSorter infos).Pairwise (fun a b => a.From < b.From) ∧
      ∀ r ∈ SlotsRanges insertionSorter infos, ∃ n ∈ sampleCluster, n.isMaster = true ∧
        (∃ p ∈ n.ranges, r.From = (p.1 : Int) ∧ r.To = (p.2 : Int)) ∧
        ∃ reps, r.Addrs = n.endpoint :: reps ∧
          reps.Perm (replicaEndpoints sampleCluster n.id) :=
  ⟨⟨by decide, by decide, by unfold rangesDisjoint; decide⟩,
   cluster_text_round_trip insertionSorter sampleCluster (by decide) (by decide)
     (by unfold rangesDisjoint; decide)⟩

/-- The routing table of the sample cluster, spelled out. -/
theorem cluster_text_sample_table :
    (ParseClusterInfo insertionSorter (.bytes (clusterText sampleCluster))).bind
        (fun infos => .ok (SlotsRanges insertionSorter infos))
      = .ok [ { From := 0, To := 99,
                Addrs := ["10.0.0.1:7000".toList, "10.0.0.3:7002".toList,
                  "10.0.0.4:7003".toList] },
              { From := 100, To := 8191,
                Addrs := ["10.0.0.1:7000".toList, "10.0.0.3:7002".toList,
                  "10.0.0.4:7003".toList] },
              { From := 8192, To := 16383, Addrs := ["10.0.0.2:7001".toList] } ] := by
  decide



/-! ## Sticky failure of the scanner -/

theorem next_of_err (isLast : Str → Bool) (conn : Str → Bool) (s : Scanner) (e : RedisError)
    (h : s.Err = some e) : s.Next isLast conn = .ok (s, .resolve (some e)) := by
  simp [Scanner.Next, h]

theorem runNext_of_err (isLast : Str → Bool) (conn : Str → Bool) (s : Scanner)
    (e : RedisError) (h : s.Err = some e) (n : Nat) (replies : List Str) :
    runNext isLast conn n s replies = List.replicate n (.resolve (some e)) := by
  induction n with
  | zero => rfl
  | succ n ih =>
    rw [runNext_resolve isLast conn n s s (some e) replies (next_of_err isLast conn s e h), ih]
    rfl

/-- C11: in a state with a stored error, `Next` resolves the callback with
exactly that error whatever the connections are (no lookup, nothing forwarded)
and leaves the state as it is, so every later call yields the same error.  The
stored error is `ErrClusterConfigEmpty` after a keyspace-wide construction
over no master, and `ErrNotConnected` with the address after a `Next` that
found no connection for the first pending address. -/
theorem scanner_failure_sticky (isLast : Str → Bool) (s : Scanner) (e : RedisError)
    (h : s.Err = some e) :
    (∀ conn, s.Next isLast conn = .ok (s, .resolve (some e))) ∧
    (∀ conn n replies, runNext isLast conn n s replies = List.replicate n (.resolve (some e))) ∧
    (∀ shardAddrs opts, (opts.Cmd = [] ∨ opts.Cmd = ['S', 'C', 'A', 'N']) →
      newScanner [] shardAddrs opts
        = .ok { Err := some errClusterConfigEmpty, Iter := none, addrs := [] }) ∧
    (∀ conn it a rest, conn a = false → (∀ c, it = some c → isLast c = false) →
      Scanner.Next isLast conn { Err := none, Iter := it, addrs := a :: rest }
        = .ok ({ Err := some (errNotConnected a), Iter := it, addrs := a :: rest },
            .resolve (some (errNotConnected a)))) := by
  refine ⟨fun conn => next_of_err isLast conn s e h,
    fun conn n replies => runNext_of_err isLast conn s e h n replies, ?_, ?_⟩
  · intro shardAddrs opts hcmd
    simp [newScanner, hcmd]
  · intro conn it a rest hconn hit
    have hl : Scanner.IterLast isLast { Err := none, Iter := it, addrs := a :: rest } = false := by
      cases it with
      | none => rfl
      | some c => exact hit c rfl
    simp [Scanner.Next, hl, Res.bind, hconn]

theorem scanner_failure_sticky_witness :
    failedScanner.Err = some (errNotConnected ['A']) ∧
    ((∀ conn, failedScanner.Next isZeroCursor conn
        = .ok (failedScanner, .resolve (some (errNotConnected ['A'])))) ∧
    (∀ conn n replies, runNext isZeroCursor conn n failedScanner replies
        = List.replicate n (.resolve (some (errNotConnected ['A'])))) ∧
    (∀ shardAddrs opts, (opts.Cmd = [] ∨ opts.Cmd = ['S', 'C', 'A', 'N']) →
      newScanner [] shardAddrs opts
        = .ok { Err := some errClusterConfigEmpty, Iter := none, addrs := [] }) ∧
    (∀ conn it a rest, conn a = false → (∀ c, it = some c → isZeroCursor c = false) →
      Scanner.Next isZeroCursor conn { Err := none, Iter := it, addrs := a :: rest }
        = .ok ({ Err := some (errNotConnected a), Iter := it, addrs := a :: rest },
            .resolve (some (errNotConnected a))))) :=
  ⟨rfl, scanner_failure_sticky isZeroCursor failedScanner (errNotConnected ['A']) rfl⟩

/-! ## `HashSum` -/

theorem HashSum_eq_foldl_map (iis : List ClusterInstanceInfo) :
    HashSum iis = (iis.map nodeText).foldl fnv1a fnvOffset64 := by
  unfold HashSum
  rw [List.foldl_map]

theorem nodeText_of_hashedFields (a b : ClusterInstanceInfo)
    (h : hashedFields a = hashedFields b) : nodeText a = nodeText b := by
  simp only [hashedFields, Prod.mk.injEq] at h
  obtain ⟨h1, h2, h3, h4, h5, h6⟩ := h
  simp only [nodeText, h1, h2, h3, h4, h5, h6]

/-- C13: two node lists of the same length that agree position by position
on `Uuid`, `IpPort`, `Port2`, `Fail`, `SlaveOf` and the owned slot ranges have
the same `HashSum`, whatever their `Ip`, `Port`, `MySelf` and `Migrating`
are. -/
theorem hashSum_depends_on_hashed_fields (a b : List ClusterInstanceInfo)
    (h : a.map hashedFields = b.map hashedFields) : HashSum a = HashSum b := by
  rw [HashSum_eq_foldl_map, HashSum_eq_foldl_map]
  have : a.map nodeText = b.map nodeText := by
    induction a generalizing b with
    | nil =>
      cases b with
      | nil => rfl
      | cons y ys => simp at h
    | cons x xs ih =>
      cases b with
      | nil => simp at h
      | cons y ys =>
        simp only [List.map_cons, List.cons.injEq] at h ⊢
        exact ⟨nodeText_of_hashedFields x y h.1, ih ys h.2⟩
  rw [this]

theorem hashSum_depends_on_hashed_fields_witness :
    hashNodesA.map hashedFields = hashNodesB.map hashedFields ∧
    hashNodesA ≠ hashNodesB ∧ HashSum hashNodesA = HashSum hashNodesB :=
  ⟨rfl, by decide, hashSum_depends_on_hashed_fields hashNodesA hashNodesB rfl⟩

/-! ## `CollectAddressesAndMigrations` -/

theorem collectMigrations_some (ms : List ClusterSlotMigration) (migrating : SlotSet) :
    ∃ after, collectMigrations ms (some migrating) = .ok (some after) ∧
      ∀ k, after k = true ↔ migrating k = true ∨ ∃ m ∈ ms, m.Number = k := by
  induction ms generalizing migrating with
  | nil => exact ⟨migrating, rfl, by simp⟩
  | cons m rest ih =>
    obtain ⟨after, h1, h2⟩ := ih (migrating.insert m.Number)
    refine ⟨after, by rw [collectMigrations, h1], ?_⟩
    intro k
    rw [h2]
    simp only [SlotSet.insert, Bool.or_eq_true, decide_eq_true_eq, List.mem_cons,
      exists_eq_or_imp]
    constructor
    · rintro ((h | h) | h)
      · exact Or.inr (Or.inl h.symm)
      · exact Or.inl h
      · exact Or.inr (Or.inr h)
    · rintro (h | h | h)
      · exact Or.inl (Or.inr h)
      · exact Or.inl (Or.inl h.symm)
      · exact Or.inr h

theorem strLess_nil_iff (s : Str) : strLess [] s = true ↔ s ≠ [] := by
  cases s <;> simp [strLess]

/-- C14, as stated, fails: the nil map is a caller-supplied value of both
parameter types, and with a node that has an address, or a migration, the
assignment into it panics, so there are no sets after the call. -/
theorem collectAddressesAndMigrations_nil_map_counterexample :
    CollectAddressesAndMigrations hashNodesA none none = .panic ∧
    CollectAddressesAndMigrations hashNodesB (some (fun _ => false)) none = .panic := by
  constructor <;> rfl

/-- C14 (amended): for every node list and every pair of caller-supplied
non-nil maps, `CollectAddressesAndMigrations` returns, and after it the
address set is the old set united with the `IpPort` of every node with a
non-empty `Ip` and a non-zero `Port`, and the slot set is the old set united
with the `Number` of every migration of every node, whatever its direction and
whether or not the node has an address; nothing is removed from either set. -/
theorem collectAddressesAndMigrations_post (iis : List ClusterInstanceInfo)
    (addrs : AddrSet) (migrating : SlotSet) :
    ∃ addrs1 migrating1,
      CollectAddressesAndMigrations iis (some addrs) (some migrating)
        = .ok (some addrs1, some migrating1) ∧
      (∀ k, addrs1 k = true ↔
        addrs k = true ∨ ∃ n ∈ iis, n.Ip ≠ [] ∧ n.Port ≠ 0 ∧ n.IpPort = k) ∧
      (∀ k, migrating1 k = true ↔
        migrating k = true ∨ ∃ n ∈ iis, ∃ m ∈ n.Migrating, m.Number = k) := by
  induction iis generalizing addrs migrating with
  | nil => exact ⟨addrs, migrating, rfl, by simp, by simp⟩
  | cons ii rest ih =>
    obtain ⟨mig, hm1, hm2⟩ := collectMigrations_some ii.Migrating migrating
    obtain ⟨addrs1, migrating1, h0, ih1, ih2⟩ := ih
      (if (strLess [] ii.Ip && decide (ii.Port ≠ 0)) = true then addrs.insert ii.IpPort
        else addrs) mig
    refine ⟨addrs1, migrating1, ?_, ?_, ?_⟩
    · rw [CollectAddressesAndMigrations]
      by_cases hc : (strLess [] ii.Ip && decide (ii.Port ≠ 0)) = true
      · rw [if_pos hc] at h0
        rw [if_pos hc]
        simp only [assignAddr, Res.bind, hm1]
        exact h0
      · rw [if_neg hc] at h0
        rw [if_neg hc]
        simp only [Res.bind, hm1]
        exact h0
    · intro k
      rw [ih1]
      simp only [List.mem_cons, exists_eq_or_imp]
      by_cases hc : (strLess [] ii.Ip && decide (ii.Port ≠ 0)) = true
      · rw [if_pos hc]
        simp only [Bool.and_eq_true, strLess_nil_iff, decide_eq_true_eq] at hc
        simp only [AddrSet.insert, Bool.or_eq_true, decide_eq_true_eq]
        constructor
        · rintro ((h | h) | h)
          · exact Or.inr (Or.inl ⟨hc.1, hc.2, h.symm⟩)
          · exact Or.inl h
          · exact Or.inr (Or.inr h)
        · rintro (h | h | h)
          · exact Or.inl (Or.inr h)
          · exact Or.inl (Or.inl h.2.2.symm)
          · exact Or.inr h
      · rw [if_neg hc]
        simp only [Bool.and_eq_true, strLess_nil_iff, decide_eq_true_eq] at hc
        constructor
        · rintro (h | h)
          · exact Or.inl h
          · exact Or.inr (Or.inr h)
        · rintro (h | h | h)
          · exact Or.inl h
          · exact absurd ⟨h.1, h.2.1⟩ hc
          · exact Or.inr h
    · intro k
      rw [ih2, hm2]
      simp only [List.mem_cons, exists_eq_or_imp]
      constructor
      · rintro ((h | h) | h)
        · exact Or.inl h
        · exact Or.inr (Or.inl h)
        · exact Or.inr (Or.inr h)
      · rintro (h | h | h)
        · exact Or.inl (Or.inl h)
        · exact Or.inl (Or.inr h)
        · exact Or.inr h

/-- The sets after a call on the sample snapshot with a migration, started
from empty non-nil maps. -/
theorem collectAddressesAndMigrations_sample :
    ∃ addrs1 migrating1,
      CollectAddressesAndMigrations hashNodesB (some (fun _ => false)) (some (fun _ => false))
        = .ok (some addrs1, some migrating1) ∧
      addrs1 ['a'] = true ∧ addrs1 ['x'] = false ∧
      migrating1 3 = true ∧ migrating1 4 = false :=
  ⟨_, _, rfl, by decide, by decide, by decide, by decide⟩

/-! ## Upstream errors -/

/-- C15: a reply that is itself an error value `e` makes `ParseSlotsInfo` and
`ParseClusterInfo` return no value and the very same `e`, whatever else the
reply would hold. -/
theorem upstream_error_passes_through (srt : SliceSorter) (e : RedisError) :
    ParseSlotsInfo srt (.err e) = .error e ∧ ParseClusterInfo srt (.err e) = .error e :=
  ⟨rfl, rfl⟩

/-! ## A flipped `Fail` flag changes the hash -/

theorem byteSum_append (a b : Str) : byteSum (a ++ b) = byteSum a + byteSum b := by
  simp [byteSum]

theorem byteSum_cons (c : Char) (s : Str) : byteSum (c :: s) = c.toNat + byteSum s := by
  simp [byteSum]

/-- Each step of FNV-1a multiplies by an odd prime after the exclusive or, so
the lowest bit of the hash is the lowest bit of the start value plus the sum
of the bytes. -/
theorem fnv1a_parity (s : Str) (h : Nat) : fnv1a h s % 2 = (h + byteSum s) % 2 := by
  induction s generalizing h with
  | nil => simp [fnv1a, byteSum]
  | cons c cs ih =>
    rw [fnv1a, ih, byteSum_cons]
    have h1 : ((h ^^^ c.toNat) * fnvPrime64 % 2 ^ 64) % 2 = (h ^^^ c.toNat) % 2 := by
      have hx := Nat.mod_mod_of_dvd ((h ^^^ c.toNat) * fnvPrime64) (show 2 ∣ 2 ^ 64 by norm_num)
      rw [hx, Nat.mul_mod]
      have : fnvPrime64 % 2 = 1 := by decide
      rw [this]
      omega
    have h2 := @Nat.xor_mod_two_eq h c.toNat
    omega

theorem fnv1a_append (a b : Str) (h : Nat) : fnv1a h (a ++ b) = fnv1a (fnv1a h a) b := by
  induction a generalizing h with
  | nil => rfl
  | cons c cs ih =>
    rw [List.cons_append, fnv1a, fnv1a]
    exact ih _

/-- The hash is the FNV-1a hash of the concatenated texts of the nodes. -/
theorem HashSum_eq_fnv1a (iis : List ClusterInstanceInfo) :
    HashSum iis = fnv1a fnvOffset64 (iis.flatMap nodeText) := by
  unfold HashSum
  generalize fnvOffset64 = h
  induction iis generalizing h with
  | nil => rfl
  | cons ii rest ih => rw [List.foldl_cons, ih, List.flatMap_cons, fnv1a_append]

theorem byteSum_boolText (b : Bool) : byteSum (boolText b) % 2 = if b then 0 else 1 := by
  cases b <;> decide

/-- Negating `Fail` changes the parity of the byte sum of the text of a node. -/
theorem byteSum_nodeText_flip (ii : ClusterInstanceInfo) :
    byteSum (nodeText { ii with Fail := !ii.Fail }) % 2 = (byteSum (nodeText ii) + 1) % 2 := by
  have hsplit : ∀ x : ClusterInstanceInfo, byteSum (nodeText x)
      = byteSum (x.Uuid ++ '\t' :: x.IpPort ++ '\t' :: Itoa x.Port2 ++ ['\t'])
        + byteSum (boolText x.Fail)
        + byteSum ('\t' :: x.SlaveOf ++ slotsText x.Slots ++ ['\n']) := by
    intro x
    rw [← byteSum_append, ← byteSum_append]
    congr 1
    simp [nodeText]
  rw [hsplit, hsplit]
  simp only []
  generalize byteSum (ii.Uuid ++ '\t' :: ii.IpPort ++ '\t' :: Itoa ii.Port2 ++ ['\t']) = a
  generalize byteSum ('\t' :: ii.SlaveOf ++ slotsText ii.Slots ++ ['\n']) = c
  have h1 : byteSum (boolText false) % 2 = 1 := by decide
  have h2 : byteSum (boolText true) % 2 = 0 := by decide
  cases hf : ii.Fail
  · simp only [Bool.not_false]
    omega
  · simp only [Bool.not_true]
    omega

theorem byteSum_flipFailAt (iis : List ClusterInstanceInfo) (i : Nat) (hi : i < iis.length) :
    byteSum ((flipFailAt i iis).flatMap nodeText) % 2
      = (byteSum (iis.flatMap nodeText) + 1) % 2 := by
  induction iis generalizing i with
  | nil => simp at hi
  | cons ii rest ih =>
    cases i with
    | zero =>
      simp only [flipFailAt, List.flatMap_cons, byteSum_append]
      have := byteSum_nodeText_flip ii
      omega
    | succ i =>
      simp only [flipFailAt, List.flatMap_cons, byteSum_append]
      have := ih i (by simpa using hi)
      omega

/-- C12: negating the `Fail` flag of the node at any index `i < len(iis)`
changes `HashSum`: the two hashed texts differ in `true` against `false`, whose
byte sums have different parities, and the lowest bit of an FNV-1a hash is the
parity of the byte sum of the text (plus the offset basis). -/
theorem hashSum_fail_flip (iis : List ClusterInstanceInfo) (i : Nat) (hi : i < iis.length) :
    HashSum (flipFailAt i iis) ≠ HashSum iis := by
  intro h
  have h1 := congrArg (· % 2) h
  simp only [HashSum_eq_fnv1a, fnv1a_parity] at h1
  have h2 := byteSum_flipFailAt iis i hi
  omega

theorem hashSum_fail_flip_witness :
    0 < hashNodesA.length ∧ HashSum (flipFailAt 0 hashNodesA) ≠ HashSum hashNodesA :=
  ⟨by decide, hashSum_fail_flip hashNodesA 0 (by decide)⟩

/-- The two hashes of the witness, spelled out. -/
theorem hashSum_sample :
    HashSum hashNodesA = 16730056351491309744 ∧
    HashSum (flipFailAt 0 hashNodesA) = 17765318371411994479 := by
  decide

/-! ## The scanner stays in bounds -/

/-- In a state whose active cursor implies a pending address, `Next` does not
panic, keeps that property, drops at most the first pending address, and
forwards only to an address that stays pending. -/
theorem next_in_bounds (isLast : Str → Bool) (conn : Str → Bool) (s : Scanner)
    (hinv : s.Err = none → s.Iter ≠ none → s.addrs ≠ []) :
    ∃ s1 eff, s.Next isLast conn = .ok (s1, eff) ∧
      (s1.Err = none → s1.Iter ≠ none → s1.addrs ≠ []) ∧
      (s1.addrs = s.addrs ∨ ∃ a, s.addrs = a :: s1.addrs) ∧
      (∀ a it, eff = .forward a it → s1.addrs ≠ []) := by
  obtain ⟨err, iter, addrs⟩ := s
  cases err with
  | some e =>
    refine ⟨_, _, next_of_err isLast conn _ e rfl, hinv, Or.inl rfl, ?_⟩
    intro a it h
    cases h
  | none =>
    have hinv2 : iter ≠ none → addrs ≠ [] := hinv rfl
    cases hl : Scanner.IterLast isLast { Err := none, Iter := iter, addrs := addrs } with
    | true =>
      have hiter : iter ≠ none := by
        intro h
        subst h
        simp [Scanner.IterLast] at hl
      cases addrs with
      | nil => exact absurd rfl (hinv2 hiter)
      | cons x rest =>
        cases rest with
        | nil =>
          refine ⟨{ Err := none, Iter := none, addrs := [] }, .resolve none, ?_, ?_, ?_, ?_⟩
          · simp [Scanner.Next, hl, Res.bind]
          · intro _ h; exact absurd rfl h
          · exact Or.inr ⟨x, rfl⟩
          · intro a it h; cases h
        | cons y ys =>
          by_cases hc : conn y = true
          · refine ⟨{ Err := none, Iter := none, addrs := y :: ys }, .forward y none,
              ?_, ?_, ?_, ?_⟩
            · simp [Scanner.Next, hl, Res.bind, hc]
            · intro _ h; exact absurd rfl h
            · exact Or.inr ⟨x, rfl⟩
            · intro a it _; simp
          · refine ⟨{ Err := some (errNotConnected y), Iter := none, addrs := y :: ys },
              .resolve (some (errNotConnected y)), ?_, ?_, ?_, ?_⟩
            · simp [Scanner.Next, hl, Res.bind, hc]
            · intro h; cases h
            · exact Or.inr ⟨x, rfl⟩
            · intro a it h; cases h
    | false =>
      cases addrs with
      | nil =>
        have hiter : iter = none := by
          by_contra h
          exact hinv2 h rfl
        subst hiter
        refine ⟨{ Err := none, Iter := none, addrs := [] }, .resolve none, ?_, ?_, ?_, ?_⟩
        · simp [Scanner.Next, hl, Res.bind]
        · intro _ h; exact absurd rfl h
        · exact Or.inl rfl
        · intro a it h; cases h
      | cons y ys =>
        by_cases hc : conn y = true
        · refine ⟨{ Err := none, Iter := iter, addrs := y :: ys }, .forward y iter,
            ?_, ?_, ?_, ?_⟩
          · simp [Scanner.Next, hl, Res.bind, hc]
          · intro _ _; simp
          · exact Or.inl rfl
          · intro a it _; simp
        · refine ⟨{ Err := some (errNotConnected y), Iter := iter, addrs := y :: ys },
            .resolve (some (errNotConnected y)), ?_, ?_, ?_, ?_⟩
          · simp [Scanner.Next, hl, Res.bind, hc]
          · intro h; cases h
          · exact Or.inl rfl
          · intro a it h; cases h

theorem newScanner_iter (masters : List Str) (shardAddrs : Str → List Str) (opts : ScanOpts)
    (s : Scanner) (h : newScanner masters shardAddrs opts = .ok s) : s.Iter = none := by
  unfold newScanner at h
  split at h
  · split at h <;> (simp only [Res.ok.injEq] at h; subst h; rfl)
  · split at h
    · cases h
    · simp only [Res.ok.injEq] at h; subst h; rfl

/-- Every reachable state has a pending address whenever it has an active cursor. -/
theorem reachable_inv (isLast : Str → Bool) (s : Scanner) (h : Scanner.Reachable isLast s) :
    s.Err = none → s.Iter ≠ none → s.addrs ≠ [] := by
  induction h with
  | init masters shardAddrs opts s hnew hne =>
    intro _ _; exact hne
  | next conn s s1 eff _ hnext ih =>
    obtain ⟨t1, eff1, h1, h2, _, _⟩ := next_in_bounds isLast conn s ih
    rw [h1] at hnext
    simp only [Res.ok.injEq, Prod.mk.injEq] at hnext
    rw [← hnext.1]
    exact h2
  | reply conn s s1 a it err cursor _ hnext ih =>
    obtain ⟨t1, eff1, h1, _, _, h4⟩ := next_in_bounds isLast conn s ih
    rw [h1] at hnext
    simp only [Res.ok.injEq, Prod.mk.injEq] at hnext
    intro _ _
    have := h4 a it hnext.2
    rw [hnext.1] at this
    exact this

/-- C19: in every state reachable from a construction with a non-empty
pending list by `Next` calls and resolutions of forwarded scans (any
connection availability, any cursor stored), a nil `Err` and a non-nil cursor
(terminal or not) come only with a non-empty pending list; so no `Next` call
panics on `addrs[1:]` or `addrs[0]`, and a call leaves the pending list as it
is or drops exactly its first element. -/
theorem scanner_reachable_in_bounds (isLast : Str → Bool) (s : Scanner)
    (h : Scanner.Reachable isLast s) :
    (s.Err = none → s.Iter ≠ none → s.addrs ≠ []) ∧
    ∀ conn, ∃ s1 eff, s.Next isLast conn = .ok (s1, eff) ∧
      (s1.addrs = s.addrs ∨ ∃ a, s.addrs = a :: s1.addrs) := by
  refine ⟨reachable_inv isLast s h, ?_⟩
  intro conn
  obtain ⟨s1, eff, h1, _, h3, _⟩ := next_in_bounds isLast conn s (reachable_inv isLast s h)
  exact ⟨s1, eff, h1, h3⟩

/-- The state after the scan of `A` returned the terminal cursor is reachable. -/
theorem reachable_sample :
    Scanner.Reachable isZeroCursor { Err := none, Iter := some ['0'], addrs := [['A'], ['B']] } := by
  have h0 : Scanner.Reachable isZeroCursor { Err := none, Iter := none, addrs := [['A'], ['B']] } :=
    Scanner.Reachable.init [['A'], ['B']] (fun _ => []) { Cmd := [], Key := [] } _
      (by decide) (by decide)
  exact Scanner.Reachable.reply (fun _ => true) _
    { Err := none, Iter := none, addrs := [['A'], ['B']] } ['A'] none none (some ['0']) h0
    (by decide)

theorem scanner_reachable_in_bounds_witness :
    Scanner.Reachable isZeroCursor { Err := none, Iter := some ['0'], addrs := [['A'], ['B']] } ∧
    ((({ Err := none, Iter := some ['0'], addrs := [['A'], ['B']] } : Scanner).Err = none →
      ({ Err := none, Iter := some ['0'], addrs := [['A'], ['B']] } : Scanner).Iter ≠ none →
      ({ Err := none, Iter := some ['0'], addrs := [['A'], ['B']] } : Scanner).addrs ≠ []) ∧
    ∀ conn, ∃ s1 eff,
      Scanner.Next isZeroCursor conn { Err := none, Iter := some ['0'], addrs := [['A'], ['B']] }
        = .ok (s1, eff) ∧
      (s1.addrs = [['A'], ['B']] ∨ ∃ a, [['A'], ['B']] = a :: s1.addrs)) :=
  ⟨reachable_sample, scanner_reachable_in_bounds isZeroCursor _ reachable_sample⟩

/-! ## `ParseClusterInfo` on malformed records -/

/-- C16, the code at the failing input: the slot `70000` is stored as `4464`
(`70000 mod 65536`), the range `5-3` is stored with `from > to`, and the marker
`[70000->-abc]` gives the migration of slot `4464`; the reply is accepted. -/
theorem parseClusterInfo_accepts_out_of_range_slots :
    ParseClusterInfo insertionSorter (.bytes outOfRangeLine) =
      .ok [{ sampleNodeNoTokens with
        Slots := [(4464, 4464), (5, 3)],
        Migrating := [{ Number := 4464, Moving := .ClusterSlotMigrating,
                        Peer := "abc".toList }] }] := by
  decide

/-- C17, the code at the failing inputs: a bracket token without marker is
accepted and gives the migration `{0, ClusterSlotImporting, ""}`; a bracket
token without closing bracket is accepted and loses the last byte of its
peer id. -/
theorem parseClusterInfo_accepts_malformed_bracket :
    ParseClusterInfo insertionSorter (.bytes unmarkedBracketLine) =
      .ok [{ sampleNodeNoTokens with
        Migrating := [{ Number := 0, Moving := .ClusterSlotImporting, Peer := [] }] }] ∧
    ParseClusterInfo insertionSorter (.bytes unclosedBracketLine) =
      .ok [{ sampleNodeNoTokens with
        Migrating := [{ Number := 100, Moving := .ClusterSlotImporting,
                        Peer := "abc12".toList }] }] := by
  constructor <;> decide

/-- C18, the code at the failing inputs: `ParseClusterInfo` panics on a line of
16 bytes without a space (`parts[1]`), on a line with fewer than eight fields
(`parts[8:]`), on an empty token between two spaces (`slot[0]`), and on a
bracket token that ends right after the marker (`slot[ix+3 : len(slot)-1]`). -/
theorem parseClusterInfo_panics :
    ParseClusterInfo insertionSorter (.bytes oneFieldLine) = .panic ∧
    ParseClusterInfo insertionSorter (.bytes threeFieldLine) = .panic ∧
    ParseClusterInfo insertionSorter (.bytes doubleSpaceLine) = .panic ∧
    ParseClusterInfo insertionSorter (.bytes markerOnlyLine) = .panic := by
  refine ⟨?_, ?_, ?_, ?_⟩ <;> decide

/-! ## `ScanResponse` -/

/-- C20, the code at the failing inputs: `ScanResponse` panics on the empty
array (`arr[0]`) and on an array whose only element is a byte string
(`arr[1]`). -/
theorem scanResponse_panics :
    ScanResponse (.array []) = .panic ∧
    ScanResponse (.array [.bytes ['0']]) = .panic := by
  constructor <;> rfl

theorem keysToStrings_eq_some (keys : List Value) (strs : List Str) :
    keysToStrings keys = some strs ↔ keys = strs.map Value.bytes := by
  induction keys generalizing strs with
  | nil => cases strs <;> simp [keysToStrings]
  | cons k rest ih =>
    cases k with
    | bytes b =>
      cases hr : keysToStrings rest with
      | none =>
        simp only [keysToStrings, hr]
        cases strs with
        | nil => simp
        | cons x xs =>
          simp only [List.map_cons, List.cons.injEq, Value.bytes.injEq]
          constructor
          · intro h
            cases h
          · rintro ⟨_, h⟩
            rw [(ih xs).mpr h] at hr
            cases hr
      | some ss =>
        simp only [keysToStrings, hr, Option.some.injEq]
        have := (ih ss).mp hr
        cases strs with
        | nil => simp
        | cons x xs =>
          simp only [List.cons.injEq, List.map_cons, Value.bytes.injEq]
          constructor
          · rintro ⟨h1, h2⟩
            exact ⟨h1, by rw [← h2]; exact this⟩
          · rintro ⟨h1, h2⟩
            refine ⟨h1, ?_⟩
            have h3 := (ih xs).mpr h2
            rw [hr] at h3
            exact Option.some.inj h3
    | int i => cases strs <;> simp [keysToStrings]
    | array xs => cases strs <;> simp [keysToStrings]
    | err e => cases strs <;> simp [keysToStrings]
    | other => cases strs <;> simp [keysToStrings]

/-- On an array of at least two elements that is no error value
`ScanResponse` is total: it returns the cursor and the keys exactly
when the first element is a byte string and the second an array of byte
strings, and a Response/Format error otherwise. -/
theorem scanResponse_two_elements (a0 a1 : Value) (rest : List Value) :
    (∀ (it : Str) (strs : List Str), ScanResponse (.array (a0 :: a1 :: rest)) = .ok (it, strs) ↔
      a0 = .bytes it ∧ a1 = .array (strs.map Value.bytes)) ∧
    ((¬ ∃ (it : Str) (strs : List Str), a0 = .bytes it ∧ a1 = .array (strs.map Value.bytes)) →
      ScanResponse (.array (a0 :: a1 :: rest)) = .error errFormat) := by
  cases a0 with
  | bytes b =>
    cases a1 with
    | array keys =>
      cases hk : keysToStrings keys with
      | some ss =>
        have hkeys := (keysToStrings_eq_some keys ss).mp hk
        constructor
        · intro it strs
          simp only [ScanResponse, Error, hk, Res.ok.injEq, Prod.mk.injEq, Value.bytes.injEq,
            Value.array.injEq]
          constructor
          · rintro ⟨h1, h2⟩
            exact ⟨h1, by rw [← h2]; exact hkeys⟩
          · rintro ⟨h1, h2⟩
            refine ⟨h1, ?_⟩
            have := (keysToStrings_eq_some keys strs).mpr h2
            rw [hk] at this
            exact Option.some.inj this
        · intro hno
          exact absurd ⟨b, ss, rfl, by rw [hkeys]⟩ hno
      | none =>
        constructor
        · intro it strs
          simp only [ScanResponse, Error, hk, Value.bytes.injEq, Value.array.injEq, false_iff,
            not_and, reduceCtorEq]
          intro _ h2
          rw [(keysToStrings_eq_some keys strs).mpr h2] at hk
          cases hk
        · intro _
          simp only [ScanResponse, Error, hk]
    | int i => exact ⟨fun it strs => by simp [ScanResponse, Error], fun _ => rfl⟩
    | bytes c => exact ⟨fun it strs => by simp [ScanResponse, Error], fun _ => rfl⟩
    | err e => exact ⟨fun it strs => by simp [ScanResponse, Error], fun _ => rfl⟩
    | other => exact ⟨fun it strs => by simp [ScanResponse, Error], fun _ => rfl⟩
  | int i => exact ⟨fun it strs => by simp [ScanResponse, Error], fun _ => rfl⟩
  | array xs => exact ⟨fun it strs => by simp [ScanResponse, Error], fun _ => rfl⟩
  | err e => exact ⟨fun it strs => by simp [ScanResponse, Error], fun _ => rfl⟩
  | other => exact ⟨fun it strs => by simp [ScanResponse, Error], fun _ => rfl⟩

end Redispipe
